import Mathlib

/-!
Verification of the natural-language specification of the Zowe Explorer
VS Code repository against a shallow embedding of its TypeScript sources.

The embedding covers:
* `ProfilesCache` (profile cache: `refresh`, `shouldRemoveTokenFromProfile`,
  `checkMergingConfigSingleProfile`, `getMergedAttrs`, `loadNamedProfile`,
  `getDefaultProfile`, `fetchBaseProfile`, `getParentProfileForToken`,
  `validateAndParseUrl`, `checkForEnvVarAndUpdate`);
* `SharedUtils` (`handleProfileChange`, `parseFavorites`, `checkIfChildPath`).

JavaScript dynamic values that can reach the modelled code are embedded by
`JSVal` (undefined, null, strings, integers and booleans), and profile
objects (`imperative.IProfile`) by insertion-ordered association lists of
properties, matching JS object-property semantics for the operations the
sources perform (property read, property assignment).

The external `imperative` configuration library is modelled by structures of
abstract functions (`ProfileInfo`, `Config`): the code under verification only
forwards to those functions, so theorems quantify over their behaviour.
-/

set_option maxHeartbeats 1000000

/-- JavaScript values reaching the modelled code paths: `undefined`, `null`,
strings, (integer) numbers and booleans. -/
inductive JSVal where
  | undefined : JSVal
  | null : JSVal
  | str : String → JSVal
  | num : Int → JSVal
  | bool : Bool → JSVal
deriving DecidableEq

/-- JS truthiness of a value: `undefined`, `null`, `""`, `0` and `false` are
falsy, everything else modelled here is truthy. -/
def jsTruthy : JSVal → Bool
  | .undefined => false
  | .null => false
  | .str s => s ≠ ""
  | .num n => n ≠ 0
  | .bool b => b

/-- Reading an absent property of a JS object yields `undefined`. -/
def normProp (o : Option JSVal) : JSVal := o.getD .undefined

/-- Truthiness of a (possibly absent) property value. -/
def propTruthy (o : Option JSVal) : Bool := jsTruthy (normProp o)

/-- JS strict equality `===` on (possibly absent) property values; an absent
property is indistinguishable from one explicitly set to `undefined`. -/
def jsStrictEq (a b : Option JSVal) : Bool := normProp a = normProp b

/-- JS strict inequality `!==` on (possibly absent) property values. -/
def jsStrictNe (a b : Option JSVal) : Bool := !jsStrictEq a b

/-- A property value is `undefined` (either absent or explicitly set so). -/
def isUndefined (o : Option JSVal) : Bool := normProp o = JSVal.undefined

/-- `String.prototype.startsWith`, on the character-list view of strings. -/
def strStartsWith (s pre : String) : Bool := pre.toList.isPrefixOf s.toList

/-- `imperative.IProfile`: a JS object of profile properties, embedded as an
insertion-ordered association list (property name, property value). -/
abbrev IProfile := List (String × JSVal)

/-- Property read `profile[k]`; `none` encodes an absent property. -/
def getProp (p : IProfile) (k : String) : Option JSVal :=
  (p.find? (fun kv => kv.1 = k)).map (fun kv => kv.2)

/-- Property assignment `profile[k] = v`: an existing property keeps its
position and is overwritten, a new property is appended (JS object
property-order semantics). -/
def setProp (p : IProfile) (k : String) (v : JSVal) : IProfile :=
  if p.any (fun kv => kv.1 = k) then
    p.map (fun kv => if kv.1 = k then (k, v) else kv)
  else
    p ++ [(k, v)]

/-! ## Data model of the profile cache (from `ProfilesCache.ts`) -/

/-- `imperative.IProfileLoaded`, as constructed by
`ProfilesCache.getProfileLoaded` (all five fields are always populated by the
code under verification). -/
structure IProfileLoaded where
  message : String
  name : String
  type : String
  profile : IProfile
  failNotFound : Bool
deriving DecidableEq

/-- The slice of `imperative.IProfAttrs` read by the code under verification.
`osLocLen` is the length of `profLoc.osLoc` (`0` when `osLoc` is absent, so
that the source's `profLoc.osLoc?.length > 0` filter is `osLocLen > 0`). -/
structure ProfAttrs where
  profName : String
  profType : String
  isDefaultProfile : Bool
  osLocLen : Nat
deriving DecidableEq

/-- One entry of `mergeArgsForProfile(...).knownArgs`. -/
structure MergedArg where
  argName : String
  argValue : JSVal
deriving DecidableEq

/-- The slice of the external team configuration object
(`imperative.Config`) read by `fetchBaseProfile` and
`getParentProfileForToken`, modelled as abstract functions:
`secureFields` is `config.api.secure.secureFields()`,
`securePropsForProfile` is `config.api.secure.securePropsForProfile`,
`profilesGet` is `config.api.profiles.get`, and
`getProfilePathFromName` is `config.api.profiles.getProfilePathFromName`. -/
structure Config where
  secureFields : List String
  securePropsForProfile : String → List String
  profilesGet : String → IProfile
  getProfilePathFromName : String → String

/-- The slice of `imperative.ProfileInfo` used by the cache, modelled as
abstract functions. `mergeArgsForProfile a` stands for the `knownArgs` of
`mProfileInfo.mergeArgsForProfile(a, { getSecureVals: true })`,
`getDefaultProfile t` for `mProfileInfo.getDefaultProfile(t)` (`none` when the
library returns `null`/`undefined`), and `teamConfig` for
`mProfileInfo.getTeamConfig()`. -/
structure ProfileInfo where
  getAllProfiles : String → List ProfAttrs
  mergeArgsForProfile : ProfAttrs → List MergedArg
  getDefaultProfile : String → Option ProfAttrs
  teamConfig : Config

/-- `Validation.IValidationProfile` (only emptiness of the validation list is
relevant to the claims). -/
structure ValidationProfile where
  name : String
  status : String
deriving DecidableEq

/-- The mutable state of a `ProfilesCache` instance. The two JS `Map`s are
embedded as insertion-ordered association lists, and the JS `Set`
`allExternalTypes` as its insertion-ordered list of elements. -/
structure CacheState where
  allProfiles : List IProfileLoaded
  profilesByType : List (String × List IProfileLoaded)
  defaultProfileByType : List (String × IProfileLoaded)
  allTypes : List String
  allExternalTypes : List String
  profilesForValidation : List ValidationProfile
deriving DecidableEq

/-! JS `Map` operations on the association-list embedding. `Map.set` keeps
the position of an existing key and appends a new one; `Map.delete` removes
the key; both match JS `Map` insertion-order semantics. -/

def mapGet {α : Type} (m : List (String × α)) (k : String) : Option α :=
  (m.find? (fun kv => kv.1 = k)).map (fun kv => kv.2)

def mapSet {α : Type} (m : List (String × α)) (k : String) (v : α) :
    List (String × α) :=
  if m.any (fun kv => kv.1 = k) then
    m.map (fun kv => if kv.1 = k then (k, v) else kv)
  else
    m ++ [(k, v)]

def mapDelete {α : Type} (m : List (String × α)) (k : String) :
    List (String × α) :=
  m.filter (fun kv => kv.1 ≠ k)

/-! ## ProfilesCache operations -/

/-- `ProfilesCache.getProfileLoaded`. -/
def getProfileLoaded (profileName profileType : String) (profile : IProfile) :
    IProfileLoaded :=
  { message := ""
    name := profileName
    type := profileType
    profile := profile
    failNotFound := false }

/-- `ProfilesCache.getMergedAttrs`: starting from the empty object, assign
`profile[arg.argName] = arg.argValue` for each known merged argument; the
empty object is returned when `profAttrs` is `null`. -/
def getMergedAttrs (info : ProfileInfo) (profAttrs : Option ProfAttrs) :
    IProfile :=
  match profAttrs with
  | none => []
  | some a =>
    (info.mergeArgsForProfile a).foldl
      (fun prof arg => setProp prof arg.argName arg.argValue) []

/-- `imperative.SessConstants.TOKEN_TYPE_APIML` (constant of the external
SDK). -/
def TOKEN_TYPE_APIML : String := "apimlAuthenticationToken"

/-- Reading property `k` of `loaded?.profile` through JS optional chaining
(`loaded?.profile.k`): absent receiver reads as `undefined`. -/
def chainProp (loaded : Option IProfileLoaded) (k : String) : Option JSVal :=
  match loaded with
  | none => none
  | some l => getProp l.profile k

/-- `profile?.profile.tokenType?.startsWith(SessConstants.TOKEN_TYPE_APIML)`:
`undefined` (falsy) when the token type is absent, otherwise the string
comparison. A non-string `tokenType` cannot arise from the modelled
constructors. -/
def tokenTypeStartsWithApiml (profile : IProfileLoaded) : Bool :=
  match getProp profile.profile "tokenType" with
  | some (JSVal.str t) => strStartsWith t TOKEN_TYPE_APIML
  | _ => false

/-- `ProfilesCache.shouldRemoveTokenFromProfile`. The `baseProfile` argument
is optional in effect (`this.defaultProfileByType.get("base")` may be
`undefined`), which the source handles via optional chaining; the truthiness
of the JS `&&`/`||` expression it returns is the conjunction/disjunction of
the operand truthinesses, and `!==` is JS strict inequality. -/
def shouldRemoveTokenFromProfile (profile : IProfileLoaded)
    (baseProfile : Option IProfileLoaded) : Bool :=
  (propTruthy (chainProp baseProfile "host") ||
      propTruthy (chainProp baseProfile "port")) &&
    propTruthy (getProp profile.profile "host") &&
    propTruthy (getProp profile.profile "port") &&
    (jsStrictNe (chainProp baseProfile "host") (getProp profile.profile "host") ||
      jsStrictNe (chainProp baseProfile "port") (getProp profile.profile "port") ||
      (propTruthy (getProp profile.profile "user") &&
        propTruthy (getProp profile.profile "password"))) &&
    tokenTypeStartsWithApiml profile

/-- `ProfilesCache.checkMergingConfigSingleProfile`: when the token must be
removed, `profile.profile.tokenType = profile.profile.tokenValue = undefined`
(the `tokenValue` assignment happens first). -/
def checkMergingConfigSingleProfile (baseProfile : Option IProfileLoaded)
    (profile : IProfileLoaded) : IProfileLoaded :=
  if shouldRemoveTokenFromProfile profile baseProfile then
    { profile with
        profile := setProp (setProp profile.profile "tokenValue" JSVal.undefined)
          "tokenType" JSVal.undefined }
  else profile

/-- The capture group of `/^\$(\w+)$/` applied to `s` (JS `\w` is
`[A-Za-z0-9_]`), or `none` when the regular expression does not match. -/
def envVarName (s : String) : Option String :=
  let rest := s.toList.drop 1
  if s.toList.head? = some '$' && !rest.isEmpty &&
      rest.all (fun c => c.isAlphanum || c = '_') then
    some rest.asString
  else none

/-- The body of `ProfilesCache.checkForEnvVarAndUpdate` for one profile
object. `env` is `process.env` (with `none` for unset variables; an empty
string value is falsy and treated like an unset variable by the source's
`!process.env[...]` test). When the user property starts with `$` but no
usable environment variable exists, the source `continue`s and thereby skips
the password substitution for that profile as well. Properties whose value is
not a string never start with `$` for the purpose of this model (`?.` only
guards `null`/`undefined` in the source). `envUpdatePassword` is the password
half of the loop body. -/
def envUpdatePassword (env : String → Option String) (q : IProfile) : IProfile :=
  match getProp q "password" with
  | some (JSVal.str pw) =>
    if strStartsWith pw "$" then
      match envVarName pw with
      | some v =>
        match env v with
        | some ev => if ev = "" then q else setProp q "password" (JSVal.str ev)
        | none => q
      | none => q
    else q
  | _ => q

/-- The user half of the body; on a usable substitution it falls through to
the password half, otherwise the `continue` skips it. -/
def envUpdateProfile (env : String → Option String) (p : IProfile) : IProfile :=
  match getProp p "user" with
  | some (JSVal.str u) =>
    if strStartsWith u "$" then
      match envVarName u with
      | some v =>
        match env v with
        | some ev =>
          if ev = "" then p
          else envUpdatePassword env (setProp p "user" (JSVal.str ev))
        | none => p
      | none => p
    else envUpdatePassword env p
  | _ => envUpdatePassword env p

/-- `checkForEnvVarAndUpdate` applied to one cached `IProfileLoaded`. -/
def envUpdateLoaded (env : String → Option String) (p : IProfileLoaded) :
    IProfileLoaded :=
  { p with profile := envUpdateProfile env p.profile }

/-- `ProfilesCache.getAllProfileTypes`: the registered types, followed by the
external types not already registered. -/
def getAllProfileTypes (registeredTypes externalTypes : List String) :
    List String :=
  registeredTypes ++
    externalTypes.filter (fun ex => registeredTypes.all (fun t => t ≠ ex))

/-- Adding one element to a JS `Set` (kept as its insertion-ordered element
list). -/
def jsSetAdd (l : List String) (x : String) : List String :=
  if x ∈ l then l else l ++ [x]

/-- `new Set(list)`: deduplication preserving first occurrences. -/
def jsSetOfList (l : List String) : List String :=
  l.foldl jsSetAdd []

/-- The set `allTypes` built at the start of `refresh`:
`new Set(this.getAllProfileTypes(apiRegister?.registeredApiTypes() ?? []))`
followed by `allTypes.add("ssh"); allTypes.add("base")`. -/
def refreshTypes (st : CacheState) (registeredTypes : List String) :
    List String :=
  jsSetAdd (jsSetAdd (jsSetOfList
    (getAllProfileTypes registeredTypes st.allExternalTypes)) "ssh") "base"

/-- Intermediate state of the per-type loop of `refresh`: the
`defaultProfileByType` map, the `profilesByType` map and the local
`allProfiles` array being accumulated. -/
structure ScanAcc where
  defaults : List (String × IProfileLoaded)
  byType : List (String × List IProfileLoaded)
  newAll : List IProfileLoaded
deriving DecidableEq

/-- The `profileFix` object built for one profile inside the `refresh` loop:
`this.getProfileLoaded(prof.profName, prof.profType, profAttr)`. -/
def profileFix (info : ProfileInfo) (prof : ProfAttrs) : IProfileLoaded :=
  getProfileLoaded prof.profName prof.profType (getMergedAttrs info (some prof))

/-- One iteration of the inner `for (const prof of profilesForType)` loop of
`refresh`: build `profileFix`, record it as the default for the type when
`isDefaultProfile`, and push it onto `tmpAllProfiles`. (The source pushes
`Object.assign(existingProfile, profileFix)` when a previous entry with the
same name and type exists; since `profileFix` populates every `IProfileLoaded`
field, that assignment makes the pushed object equal to `profileFix`, which is
what this value-level model pushes.) -/
def scanProfile (info : ProfileInfo) (ty : String)
    (acc : List (String × IProfileLoaded) × List IProfileLoaded)
    (prof : ProfAttrs) :
    List (String × IProfileLoaded) × List IProfileLoaded :=
  ((if prof.isDefaultProfile then mapSet acc.1 ty (profileFix info prof)
    else acc.1),
    acc.2 ++ [profileFix info prof])

/-- One iteration of the outer `for (const type of allTypes)` loop of
`refresh`. -/
def processType (info : ProfileInfo) (acc : ScanAcc) (ty : String) : ScanAcc :=
  let profilesForType :=
    (info.getAllProfiles ty).filter (fun p => p.osLocLen > 0)
  if profilesForType.isEmpty then acc
  else
    let r := profilesForType.foldl (scanProfile info ty) (acc.defaults, [])
    { defaults := r.1
      byType := mapSet acc.byType ty r.2
      newAll := acc.newAll ++ r.2 }

/-- The whole per-type loop of `refresh`. -/
def refreshScan (info : ProfileInfo) (types : List String) (st : CacheState) :
    ScanAcc :=
  types.foldl (processType info)
    { defaults := st.defaultProfileByType
      byType := st.profilesByType
      newAll := [] }

/-- The stale types removed after the loop:
`[...profilesByType.keys()].filter(ty => !allProfiles.some(p => p.type === ty))`. -/
def staleTypes (byType : List (String × List IProfileLoaded))
    (newAll : List IProfileLoaded) : List String :=
  (byType.map (fun kv => kv.1)).filter
    (fun ty => !(newAll.any (fun p => p.type = ty)))

/-- `ProfilesCache.refresh`. After the loop and the stale-type cleanup, the
two in-place passes mutate shared profile objects:
`checkMergingConfigAllProfiles` iterates exactly the surviving
`profilesByType` buckets, so an object has its token removed precisely when
it occurs in a surviving bucket (an `allProfiles` entry whose bucket was
deleted as stale is not visited); `checkForEnvVarAndUpdate` iterates exactly
the new `allProfiles` list, so an object has its environment substitution
applied precisely when it occurs there (a surviving bucket entry left over
from an earlier refresh is not visited). In this value-level model the
occurrence tests are the corresponding membership tests, and the per-view
maps below apply to each element exactly the passes that visit it. A
`defaultProfileByType` entry set during this refresh is the same object as
its bucket entry, so both passes reach it, as applied below. Token removal
reads the base profile only through its `host`/`port` properties, which no
update of either pass changes, so applying it with the base profile looked
up once (as below) agrees with the source's per-profile lookup. -/
def refresh (st : CacheState) (info : ProfileInfo)
    (registeredTypes : List String) (env : String → Option String) :
    CacheState :=
  let types := refreshTypes st registeredTypes
  let scan := refreshScan info types st
  let stale := staleTypes scan.byType scan.newAll
  let byTypeClean := stale.foldl mapDelete scan.byType
  let defaultsClean := stale.foldl mapDelete scan.defaults
  let base := mapGet defaultsClean "base"
  { allProfiles := scan.newAll.map (fun p =>
      envUpdateLoaded env
        (if byTypeClean.any (fun kv => kv.2.contains p) then
          checkMergingConfigSingleProfile base p
        else p))
    profilesByType := byTypeClean.map (fun kv => (kv.1, kv.2.map (fun p =>
      if scan.newAll.contains p then
        envUpdateLoaded env (checkMergingConfigSingleProfile base p)
      else checkMergingConfigSingleProfile base p)))
    defaultProfileByType := defaultsClean.map (fun kv =>
      (kv.1, envUpdateLoaded env (checkMergingConfigSingleProfile base kv.2)))
    allTypes := types
    allExternalTypes := st.allExternalTypes
    profilesForValidation := [] }

/-- The scan accumulator produced by the per-type loop of `refresh`. -/
def refreshScanAcc (st : CacheState) (info : ProfileInfo)
    (registeredTypes : List String) : ScanAcc :=
  refreshScan info (refreshTypes st registeredTypes) st

/-- The stale types computed by `refresh` after its loop. -/
def refreshStale (st : CacheState) (info : ProfileInfo)
    (registeredTypes : List String) : List String :=
  staleTypes (refreshScanAcc st info registeredTypes).byType
    (refreshScanAcc st info registeredTypes).newAll

/-- `defaultProfileByType` after the stale-type cleanup of `refresh`. -/
def refreshDefaultsClean (st : CacheState) (info : ProfileInfo)
    (registeredTypes : List String) : List (String × IProfileLoaded) :=
  (refreshStale st info registeredTypes).foldl mapDelete
    (refreshScanAcc st info registeredTypes).defaults

/-- `profilesByType` after the stale-type cleanup of `refresh`. -/
def refreshByTypeClean (st : CacheState) (info : ProfileInfo)
    (registeredTypes : List String) : List (String × List IProfileLoaded) :=
  (refreshStale st info registeredTypes).foldl mapDelete
    (refreshScanAcc st info registeredTypes).byType

/-- The default base profile read by `checkMergingConfigAllProfiles` during
`refresh`. -/
def refreshBase (st : CacheState) (info : ProfileInfo)
    (registeredTypes : List String) : Option IProfileLoaded :=
  mapGet (refreshDefaultsClean st info registeredTypes) "base"

/-- The in-place updates applied to every cached profile object at the end of
`refresh` (token removal, then environment-variable substitution). -/
def refreshFixup (st : CacheState) (info : ProfileInfo)
    (registeredTypes : List String) (env : String → Option String)
    (p : IProfileLoaded) : IProfileLoaded :=
  envUpdateLoaded env
    (checkMergingConfigSingleProfile (refreshBase st info registeredTypes) p)

/-- `ProfilesCache.getDefaultProfile` (the `type` parameter defaults to
`"zosmf"`). -/
def getDefaultProfile (st : CacheState) (ty : String := "zosmf") :
    Option IProfileLoaded :=
  mapGet st.defaultProfileByType ty

/-- `ProfilesCache.loadNamedProfile`: the scan of `allProfiles` with the JS
condition `profile.name === name && (!type || profile.type === type)` (an
empty-string `type` is falsy and therefore ignored, like an absent one);
`Except.error` models the thrown `Error`, `Except.ok none` the implicit
`undefined` return when `optional` is set. -/
def loadNamedProfile (allProfiles : List IProfileLoaded) (name : String)
    (type? : Option String) (optional : Bool) :
    Except String (Option IProfileLoaded) :=
  match allProfiles.find? (fun p =>
      p.name = name &&
        (match type? with
         | none => true
         | some t => t = "" || p.type = t)) with
  | some p => Except.ok (some p)
  | none =>
    if !optional then
      Except.error
        ("Zowe Explorer Profiles Cache error: Could not find profile named: "
          ++ name ++ ".")
    else Except.ok none

/-! ## fetchBaseProfile and getParentProfileForToken -/

/-- Index of the last `'.'` in a character list (`String.lastIndexOf(".")`),
or `none` when there is none (JS `-1`). -/
def lastIndexOfDot : List Char → Option Nat
  | [] => none
  | c :: cs =>
    match lastIndexOfDot cs with
    | some i => some (i + 1)
    | none => if c = '.' then some 0 else none

theorem lastIndexOfDot_lt_length {l : List Char} {i : Nat}
    (h : lastIndexOfDot l = some i) : i < l.length := by
  induction l generalizing i with
  | nil => simp [lastIndexOfDot] at h
  | cons c cs ih =>
    simp only [lastIndexOfDot] at h
    cases hcs : lastIndexOfDot cs with
    | some j =>
      rw [hcs] at h
      cases h
      simpa using Nat.succ_lt_succ (ih hcs)
    | none =>
      rw [hcs] at h
      by_cases hc : c = '.'
      · simp [hc] at h
        simp [← h]
      · simp [hc] at h

theorem lastIndexOfDot_isSome_of_mem {l : List Char} (h : '.' ∈ l) :
    ∃ i, lastIndexOfDot l = some i := by
  induction l with
  | nil => simp at h
  | cons c cs ih =>
    simp only [lastIndexOfDot]
    cases hcs : lastIndexOfDot cs with
    | some j => exact ⟨j + 1, rfl⟩
    | none =>
      rcases List.mem_cons.mp h with hc | hc
      · exact ⟨0, by simp [hc.symm]⟩
      · rcases ih hc with ⟨i, hi⟩
        rw [hi] at hcs
        cases hcs

/-- `s.slice(0, s.lastIndexOf("."))` on the character-list view: the list up
to the last dot; when there is no dot, `slice(0, -1)` drops the final
character. -/
def jsSliceToLastDotL (l : List Char) : List Char :=
  match lastIndexOfDot l with
  | some i => l.take i
  | none => l.take (l.length - 1)

theorem jsSliceToLastDotL_length_lt {l : List Char} (h : '.' ∈ l) :
    (jsSliceToLastDotL l).length < l.length := by
  rcases lastIndexOfDot_isSome_of_mem h with ⟨i, hi⟩
  have hlt := lastIndexOfDot_lt_length hi
  simp [jsSliceToLastDotL, hi, Nat.min_eq_left (Nat.le_of_lt hlt), hlt]

/-- `tempProfile.includes(".")`. -/
def containsDot (s : String) : Bool := s.toList.contains '.'

/-- The `while (tempProfile.includes("."))` loop of
`getParentProfileForToken`: walk up the dot-separated ancestors of `temp`,
and return the first one whose `tokenValue` is a secure field (then `break`,
keeping it as `parentProfile`); if none matches, return the initial
`parentProfile`. -/
def parentLoopL (ok : List Char → Bool) (parent : List Char) :
    List Char → List Char := fun temp =>
  if h : '.' ∈ temp then
    let t := jsSliceToLastDotL temp
    if ok t then t else parentLoopL ok parent t
  else parent
termination_by temp => temp.length
decreasing_by exact jsSliceToLastDotL_length_lt h

/-- The secure-token test of `getParentProfileForToken`:
`secureProps.includes(config.api.profiles.getProfilePathFromName(p) + ".properties.tokenValue")`. -/
def secureTokenOk (config : Config) (l : List Char) : Bool :=
  config.secureFields.contains
    (config.getProfilePathFromName l.asString ++ ".properties.tokenValue")

/-- `ProfilesCache.getParentProfileForToken`. -/
def getParentProfileForToken (profileName : String) (config : Config) :
    String :=
  (parentLoopL (secureTokenOk config) (jsSliceToLastDotL profileName.toList)
    profileName.toList).asString

/-- `ProfilesCache.fetchBaseProfile`: `profileName` is its optional
parameter. -/
def fetchBaseProfile (info : ProfileInfo) (profileName : Option String) :
    Option IProfileLoaded :=
  let baseProfileAttrs := info.getDefaultProfile "base"
  let config := info.teamConfig
  if (match profileName with
      | some n => containsDot n
      | none => false) &&
     (match baseProfileAttrs with
      | none => true
      | some attrs =>
        !((config.securePropsForProfile attrs.profName).contains "tokenValue")) then
    match profileName with
    | some n =>
      let parentProfile := getParentProfileForToken n config
      some (getProfileLoaded parentProfile "base" (config.profilesGet parentProfile))
    | none => none
  else
    match baseProfileAttrs with
    | none => none
    | some attrs =>
      some (getProfileLoaded attrs.profName attrs.profType
        (getMergedAttrs info (some attrs)))

/-- The chain of ancestors of a dot-separated profile name, deepest (longest)
first: for `a.b.c` the chain is `[a.b, a]`. -/
def ancestorChainL (l : List Char) : List (List Char) :=
  if h : '.' ∈ l then
    jsSliceToLastDotL l :: ancestorChainL (jsSliceToLastDotL l)
  else []
termination_by l.length
decreasing_by exact jsSliceToLastDotL_length_lt h

/-- Specification wording of `getParentProfileForToken` (claim C2): the
deepest ancestor of the name whose `tokenValue` appears among the secure
fields, or the immediate parent when no ancestor has a secure `tokenValue`. -/
def deepestSecureAncestor (config : Config) (name : String) : String :=
  (((ancestorChainL name.toList).find? (secureTokenOk config)).getD
    (jsSliceToLastDotL name.toList)).asString

/-- Specification wording of `fetchBaseProfile` (claim C2), written from the
claim sentence rather than from the source. -/
def fetchBaseProfileSpec (info : ProfileInfo) (profileName : Option String) :
    Option IProfileLoaded :=
  let baseProfileAttrs := info.getDefaultProfile "base"
  let config := info.teamConfig
  match profileName with
  | some n =>
    if containsDot n then
      match baseProfileAttrs with
      | none =>
        let parent := deepestSecureAncestor config n
        some (getProfileLoaded parent "base" (config.profilesGet parent))
      | some attrs =>
        if "tokenValue" ∉ config.securePropsForProfile attrs.profName then
          let parent := deepestSecureAncestor config n
          some (getProfileLoaded parent "base" (config.profilesGet parent))
        else
          some (getProfileLoaded attrs.profName attrs.profType
            (getMergedAttrs info (some attrs)))
    else
      match baseProfileAttrs with
      | none => none
      | some attrs =>
        some (getProfileLoaded attrs.profName attrs.profType
          (getMergedAttrs info (some attrs)))
  | none =>
    match baseProfileAttrs with
    | none => none
    | some attrs =>
      some (getProfileLoaded attrs.profName attrs.profType
        (getMergedAttrs info (some attrs)))

/-! ## validateAndParseUrl -/

/-- The components of a successfully parsed WHATWG `URL` that
`validateAndParseUrl` reads. `protocol` includes the trailing colon (as
`url.protocol` does); `port` is `none` when `url.port` is the empty string
(default port). -/
structure URLParts where
  protocol : String
  hostname : String
  port : Option Nat
deriving DecidableEq

/-- `Validation.IValidationUrl`. -/
structure IValidationUrl where
  valid : Bool
  protocol : Option String
  host : Option String
  port : Option Nat
deriving DecidableEq

/-- `imperative.AbstractSession.DEFAULT_HTTPS_PORT` (constant of the external
SDK). -/
def DEFAULT_HTTPS_PORT : Nat := 443

/-- `Number(url.port)`: the empty port string converts to `0`. -/
def jsNumberOfPort : Option Nat → Nat
  | none => 0
  | some n => n

/-- Contiguous-substring test on character lists. -/
def listHasInfix (sub : List Char) : List Char → Bool
  | [] => sub.isEmpty
  | x :: xs => sub.isPrefixOf (x :: xs) || listHasInfix sub xs

/-- `newUrl.includes(sub)`. -/
def stringIncludes (s sub : String) : Bool := listHasInfix sub.toList s.toList

/-- `ProfilesCache.validateAndParseUrl`. The WHATWG `URL` constructor is
external; `parseUrl` returns `none` exactly when `new URL(newUrl)` throws,
which the source catches (logging the error) before returning the all-null
invalid result. -/
def validateAndParseUrl (parseUrl : String → Option URLParts)
    (newUrl : String) : IValidationUrl :=
  match parseUrl newUrl with
  | none => { valid := false, protocol := none, host := none, port := none }
  | some url =>
    { valid := true
      protocol := some (url.protocol.toList.dropLast.asString)
      host := some url.hostname
      port := some (if stringIncludes newUrl ":443" then DEFAULT_HTTPS_PORT
        else jsNumberOfPort url.port) }

/-! ## SharedUtils.parseFavorites -/

/-- `line.indexOf(c)` on the character-list view, as an `Option`. -/
def jsIdx (c : Char) : List Char → Option Nat
  | [] => none
  | x :: xs => if x = c then some 0 else (jsIdx c xs).map (fun n => n + 1)

/-- `line.indexOf(c)`: `-1` when absent. -/
def jsIndexOf (l : List Char) (c : Char) : Int :=
  match jsIdx c l with
  | some n => (n : Int)
  | none => -1

/-- `String.prototype.substring(a, b)`: both indices are clamped into
`[0, length]` and swapped when `a > b`. -/
def jsSubstring (l : List Char) (a b : Int) : List Char :=
  let s := min a.toNat l.length
  let e := min b.toNat l.length
  if s ≤ e then (l.take e).drop s else (l.take s).drop e

/-- One-argument `String.prototype.substring(a)`. -/
def jsSubstringFrom (l : List Char) (a : Int) : List Char :=
  jsSubstring l a (l.length : Int)

/-- `String.prototype.trim()` (on the ASCII whitespace the sources use). -/
def trimL (l : List Char) : List Char :=
  ((l.dropWhile Char.isWhitespace).reverse.dropWhile Char.isWhitespace).reverse

/-- `Definitions.FavoriteData` (an absent `contextValue` is `undefined`). -/
structure FavoriteData where
  profileName : String
  label : String
  contextValue : Option String
deriving DecidableEq

/-- The per-line body of `SharedUtils.parseFavorites`; `none` models the
`null` return after the warning for an invalid line. `line.startsWith("[")`
is the head test on the character list. -/
def parseFavoriteLine (line : String) : Option FavoriteData :=
  let l := line.toList
  let closingSquareBracket := jsIndexOf l ']'
  if !(l.head? = some '[') || closingSquareBracket = -1 then none
  else
    let profileName := jsSubstring l 1 closingSquareBracket
    let remainderOfLine := trimL (jsSubstringFrom l (closingSquareBracket + 2))
    if remainderOfLine.length = 0 then none
    else
      let openingCurlyBrace := jsIndexOf remainderOfLine '{'
      some
        { profileName := profileName.asString
          label := (trimL (jsSubstring remainderOfLine 0 openingCurlyBrace)).asString
          contextValue :=
            if openingCurlyBrace > 0 then
              some (jsSubstring remainderOfLine (openingCurlyBrace + 1)
                (jsIndexOf remainderOfLine '}')).asString
            else none }

/-- `SharedUtils.parseFavorites`: map the per-line parse over the lines and
`.filter(Boolean)` the `null`s away. -/
def parseFavorites (lines : List String) : List FavoriteData :=
  lines.filterMap parseFavoriteLine

/-! ## SharedUtils.checkIfChildPath -/

/-- The JS value returned by `checkIfChildPath`: the expression
`relativePath && !relativePath.startsWith("..") && !path.isAbsolute(...)`
evaluates to the string `relativePath` itself when that string is falsy
(empty), and to a boolean otherwise. -/
inductive StrOrBool where
  | strVal : String → StrOrBool
  | boolVal : Bool → StrOrBool
deriving DecidableEq

/-- Truthiness of a `StrOrBool` value. -/
def strOrBoolTruthy : StrOrBool → Bool
  | .strVal s => s ≠ ""
  | .boolVal b => b

/-- `SharedUtils.checkIfChildPath`. `relative` and `isAbsolute` are Node's
`path.relative` / `path.isAbsolute` (platform- and working-directory
dependent), taken as abstract functions. -/
def checkIfChildPath (relative : String → String → String)
    (isAbsolute : String → Bool) (parentPath childPath : String) : StrOrBool :=
  let relativePath := relative parentPath childPath
  if relativePath = "" then StrOrBool.strVal relativePath
  else
    StrOrBool.boolVal
      (!(strStartsWith relativePath "..") && !(isAbsolute relativePath))

/-! ## SharedUtils.handleProfileChange -/

/-- A thrown JS value: an `Error` object carrying a message, or any other
thrown value (for which `err instanceof Error` is false). -/
inductive JsThrown where
  | errObj : String → JsThrown
  | nonError : JsThrown
deriving DecidableEq

/-- A tree node as observed by `handleProfileChange`: its `label`
(`undefined` possible) and the behaviour of its optional
`setProfileToChoice` method (absent method: the optional call `?.()` is
skipped; present: it either returns or throws). -/
structure TreeNode where
  label : Option String
  hasSetProfileToChoice : Bool
  setProfileOutcome : Except JsThrown Unit

/-- A tree provider as observed by `handleProfileChange`:
`await provider.getChildren()` either yields nodes or throws. -/
structure TreeProvider where
  childrenOutcome : Except JsThrown (List TreeNode)

/-- The `try` body of one iteration of `handleProfileChange`:
`(await provider.getChildren()).find(n => n.label === profile?.name)` then
`node?.setProfileToChoice?.(profile)`. -/
def handleProfileChangeBody (provider : TreeProvider)
    (profileName : Option String) : Except JsThrown Unit :=
  match provider.childrenOutcome with
  | Except.error e => Except.error e
  | Except.ok children =>
    match children.find? (fun n => n.label == profileName) with
    | none => Except.ok ()
    | some n =>
      if n.hasSetProfileToChoice then n.setProfileOutcome else Except.ok ()

/-- `SharedUtils.handleProfileChange`, iterating the providers. The `catch`
block logs `err.message` when the thrown value is an `Error` and then
`return`s, ending the function normally; `logs` accumulates
`ZoweLogger.error` output. The result type `Except` would surface an error
that escaped the `try`/`catch`, which the theorems show never happens. -/
def handleProfileChange (providers : List TreeProvider)
    (profileName : Option String) (logs : List String) :
    Except JsThrown (List String) :=
  match providers with
  | [] => Except.ok logs
  | p :: rest =>
    match handleProfileChangeBody p profileName with
    | Except.ok _ => handleProfileChange rest profileName logs
    | Except.error (JsThrown.errObj m) => Except.ok (logs ++ [m])
    | Except.error JsThrown.nonError => Except.ok logs

/-! ## Specification-side definitions and witness fixtures -/

/-- Specification wording of `loadNamedProfile` (claim C6), written from the
claim sentence: the first profile of `allProfiles` whose name equals `name`
and, when a type is supplied, whose type equals it; an error naming the
missing profile when `optional` is false, `undefined` when it is true. -/
def loadNamedProfileSpec (allProfiles : List IProfileLoaded) (name : String)
    (type? : Option String) (optional : Bool) :
    Except String (Option IProfileLoaded) :=
  match allProfiles.find? (fun p =>
      p.name = name &&
        (match type? with
         | none => true
         | some t => p.type = t)) with
  | some p => Except.ok (some p)
  | none =>
    if optional then Except.ok none
    else
      Except.error
        ("Zowe Explorer Profiles Cache error: Could not find profile named: "
          ++ name ++ ".")

/-- An empty cache state (the state of a freshly constructed
`ProfilesCache`). -/
def emptyCacheState : CacheState :=
  { allProfiles := []
    profilesByType := []
    defaultProfileByType := []
    allTypes := []
    allExternalTypes := []
    profilesForValidation := [] }

/-- Concrete team configuration used by witnesses. -/
def sampleConfig : Config :=
  { secureFields := ["lpar.properties.tokenValue"]
    securePropsForProfile := fun _ => []
    profilesGet := fun _ => []
    getProfilePathFromName := fun s => s }

/-- Concrete profile attributes used by witnesses. -/
def sampleAttrs : ProfAttrs :=
  { profName := "lpar1"
    profType := "zosmf"
    isDefaultProfile := true
    osLocLen := 1 }

/-- Concrete external-library behaviour used by witnesses: a single default
`zosmf` profile whose merged arguments carry a host. -/
def sampleInfo : ProfileInfo :=
  { getAllProfiles := fun t => if t = "zosmf" then [sampleAttrs] else []
    mergeArgsForProfile := fun _ => [{ argName := "host", argValue := JSVal.str "h1" }]
    getDefaultProfile := fun _ => none
    teamConfig := sampleConfig }

/-! ## Lemmas about the embedding -/

theorem getProp_setProp_self (p : IProfile) (k : String) (v : JSVal) :
    getProp (setProp p k v) k = some v := by
  unfold setProp
  by_cases h : p.any (fun kv => kv.1 = k)
  · simp only [h, if_true]
    induction p with
    | nil => simp at h
    | cons kv rest ih =>
      by_cases hk : kv.1 = k
      · simp [getProp, List.find?, hk]
      · simp only [List.any_cons, hk, decide_eq_true_eq, Bool.false_or] at h
        simp only [List.map_cons, if_neg hk]
        simpa [getProp, List.find?, hk] using ih h
  · simp only [h, if_false]
    simp only [List.any_eq_true, decide_eq_true_eq, not_exists, not_and] at h
    induction p with
    | nil => simp [getProp]
    | cons kv rest ih =>
      have hk : ¬ kv.1 = k := h kv (by simp)
      simp only [List.cons_append]
      simp only [getProp, List.find?, decide_eq_true_eq] at ih ⊢
      simp only [hk, decide_eq_false hk, Bool.false_eq_true, if_false]
      exact ih (fun x hx => h x (by simp [hx]))

theorem getProp_overwrite_ne (p : IProfile) (k k' : String) (v : JSVal)
    (h : k' ≠ k) :
    getProp (p.map (fun kv => if kv.1 = k then (k, v) else kv)) k' = getProp p k' := by
  induction p with
  | nil => simp [getProp]
  | cons kv rest ih =>
    by_cases hk : kv.1 = k
    · simp only [List.map_cons, if_pos hk]
      simp only [getProp, List.find?, decide_eq_false (Ne.symm h), decide_eq_false
        (hk ▸ Ne.symm h : ¬ kv.1 = k'), Bool.false_eq_true, if_false]
      exact ih
    · simp only [List.map_cons, if_neg hk]
      by_cases hk' : kv.1 = k'
      · simp [getProp, List.find?, hk']
      · simp only [getProp, List.find?, decide_eq_false hk', Bool.false_eq_true, if_false]
        exact ih

theorem getProp_append_single_ne (p : IProfile) (k k' : String) (v : JSVal)
    (h : k' ≠ k) : getProp (p ++ [(k, v)]) k' = getProp p k' := by
  induction p with
  | nil => simp [getProp, List.find?, Ne.symm h]
  | cons kv rest ih =>
    by_cases hk' : kv.1 = k'
    · simp [getProp, List.find?, hk']
    · simp only [List.cons_append, getProp, List.find?, decide_eq_false hk',
        Bool.false_eq_true, if_false] at ih ⊢
      exact ih

theorem getProp_setProp_ne (p : IProfile) (k k' : String) (v : JSVal)
    (h : k' ≠ k) : getProp (setProp p k v) k' = getProp p k' := by
  unfold setProp
  by_cases hmem : p.any (fun kv => kv.1 = k)
  · simpa only [hmem, if_true] using getProp_overwrite_ne p k k' v h
  · simpa only [hmem, if_false] using getProp_append_single_ne p k k' v h

theorem getProp_foldl_setProp_notMem (l : List MergedArg) (p : IProfile)
    (k : String) (h : ∀ arg ∈ l, arg.argName ≠ k) :
    getProp (l.foldl (fun q arg => setProp q arg.argName arg.argValue) p) k =
      getProp p k := by
  induction l generalizing p with
  | nil => rfl
  | cons x xs ih =>
    simp only [List.foldl_cons]
    rw [ih (setProp p x.argName x.argValue) (fun arg hm => h arg (by simp [hm]))]
    exact getProp_setProp_ne p x.argName k x.argValue
      (fun hk => h x (by simp) hk.symm)

theorem getProp_foldl_setProp_mem (l : List MergedArg) (p : IProfile)
    (arg : MergedArg) (hmem : arg ∈ l)
    (hN : (l.map (fun a => a.argName)).Nodup) :
    getProp (l.foldl (fun q a => setProp q a.argName a.argValue) p)
      arg.argName = some arg.argValue := by
  induction l generalizing p with
  | nil => simp at hmem
  | cons x xs ih =>
    simp only [List.map_cons, List.nodup_cons] at hN
    rcases List.mem_cons.mp hmem with hx | hx
    · subst hx
      simp only [List.foldl_cons]
      rw [getProp_foldl_setProp_notMem xs (setProp p arg.argName arg.argValue)
        arg.argName
        (fun a ha hc => hN.1 (hc ▸ List.mem_map_of_mem (fun b => b.argName) ha))]
      exact getProp_setProp_self p arg.argName arg.argValue
    · simp only [List.foldl_cons]
      exact ih (setProp p x.argName x.argValue) hx hN.2

/-! ## Claim C8: validateAndParseUrl -/

/-- **C8.** For every input string, `ProfilesCache.validateAndParseUrl` is
total (the `try`/`catch` confines the URL-constructor failure, modelled by
`parseUrl` returning `none`): it returns the all-null invalid record exactly
when the string cannot be parsed as a URL, and for a parseable URL it returns
`valid` with the protocol without its trailing colon, the hostname, and port
`443` whenever the input contains the substring `":443"`, otherwise
`Number(url.port)`. -/
theorem validateAndParseUrl_characterization
    (parseUrl : String → Option URLParts) (newUrl : String) :
    (validateAndParseUrl parseUrl newUrl =
        { valid := false, protocol := none, host := none, port := none } ↔
      parseUrl newUrl = none) ∧
    (∀ url : URLParts, parseUrl newUrl = some url →
      validateAndParseUrl parseUrl newUrl =
        { valid := true
          protocol := some url.protocol.toList.dropLast.asString
          host := some url.hostname
          port := some (if stringIncludes newUrl ":443" then DEFAULT_HTTPS_PORT
            else jsNumberOfPort url.port) }) ∧
    (∀ url : URLParts, ∀ pr : String, parseUrl newUrl = some url →
      url.protocol = pr ++ ":" →
      (validateAndParseUrl parseUrl newUrl).protocol = some pr) := by
  refine ⟨?_, ?_, ?_⟩
  · cases h : parseUrl newUrl with
    | none => simp [validateAndParseUrl, h]
    | some url => simp [validateAndParseUrl, h]
  · intro url h
    simp [validateAndParseUrl, h]
  · intro url pr h hp
    have hlist : url.protocol.data = pr.data ++ [':'] := by
      rw [hp]
      exact String.data_append pr ":"
    simp only [validateAndParseUrl, h, String.toList, hlist, List.dropLast_concat]
    exact congrArg some (String.asString_toList pr)

/-- Witness for C8 at a concrete parser and input. -/
theorem validateAndParseUrl_characterization_witness :
    (validateAndParseUrl
        (fun _ => some { protocol := "https:", hostname := "host.com", port := none })
        "https://host.com:443").protocol = some "https" :=
  (validateAndParseUrl_characterization
      (fun _ => some { protocol := "https:", hostname := "host.com", port := none })
      "https://host.com:443").2.2
    { protocol := "https:", hostname := "host.com", port := none } "https" rfl rfl

/-! ## Claim C10: checkIfChildPath -/

/-- **C10.** `SharedUtils.checkIfChildPath` returns a truthy result exactly
when the relative path from `parentPath` to `childPath` is non-empty, does
not start with `".."`, and is not absolute; when the relative path is empty
(as `path.relative(p, p)` is) the function returns the empty string — a falsy
value despite the declared boolean return type — so a path is never a child
of itself. -/
theorem checkIfChildPath_characterization
    (relative : String → String → String) (isAbsolute : String → Bool)
    (parentPath childPath : String) :
    (strOrBoolTruthy (checkIfChildPath relative isAbsolute parentPath childPath)
        = true ↔
      (relative parentPath childPath ≠ "" ∧
        strStartsWith (relative parentPath childPath) ".." = false ∧
        isAbsolute (relative parentPath childPath) = false)) ∧
    (relative parentPath parentPath = "" →
      checkIfChildPath relative isAbsolute parentPath parentPath =
          StrOrBool.strVal "" ∧
        strOrBoolTruthy
          (checkIfChildPath relative isAbsolute parentPath parentPath) = false) := by
  constructor
  · by_cases h : relative parentPath childPath = ""
    · simp [checkIfChildPath, h, strOrBoolTruthy]
    · simp only [checkIfChildPath, h, if_false, strOrBoolTruthy]
      constructor
      · intro hb
        simp only [Bool.and_eq_true, Bool.not_eq_true'] at hb
        exact ⟨h, hb.1, hb.2⟩
      · intro ⟨_, h1, h2⟩
        simp [h1, h2]
  · intro h
    simp [checkIfChildPath, h, strOrBoolTruthy]

/-- Witness for C10 at a concrete `path.relative` behaviour and equal
paths. -/
theorem checkIfChildPath_characterization_witness :
    checkIfChildPath (fun a b => if a = b then "" else "sub") (fun _ => false)
        "/tmp/x" "/tmp/x" = StrOrBool.strVal "" ∧
      strOrBoolTruthy
        (checkIfChildPath (fun a b => if a = b then "" else "sub") (fun _ => false)
          "/tmp/x" "/tmp/x") = false :=
  (checkIfChildPath_characterization (fun a b => if a = b then "" else "sub")
    (fun _ => false) "/tmp/x" "/tmp/x").2 (by decide)

/-! ## Claim C7: handleProfileChange -/

/-- **C7.** `SharedUtils.handleProfileChange` never propagates an error to
its caller: whatever the providers do, the result is a normal return
(`Except.ok`), and when the body of an iteration throws an `Error`, its
message is logged and the function returns normally at that point. -/
theorem handleProfileChange_never_throws :
    (∀ (providers : List TreeProvider) (profileName : Option String)
        (logs : List String),
      ∃ l : List String,
        handleProfileChange providers profileName logs = Except.ok l) ∧
    (∀ (p : TreeProvider) (rest : List TreeProvider)
        (profileName : Option String) (logs : List String) (m : String),
      handleProfileChangeBody p profileName = Except.error (JsThrown.errObj m) →
      handleProfileChange (p :: rest) profileName logs =
        Except.ok (logs ++ [m])) := by
  constructor
  · intro providers profileName logs
    induction providers generalizing logs with
    | nil => exact ⟨logs, rfl⟩
    | cons p rest ih =>
      cases hb : handleProfileChangeBody p profileName with
      | ok u => simpa [handleProfileChange, hb] using ih logs
      | error e =>
        cases e with
        | errObj m => exact ⟨logs ++ [m], by simp [handleProfileChange, hb]⟩
        | nonError => exact ⟨logs, by simp [handleProfileChange, hb]⟩
  · intro p rest profileName logs m hb
    simp [handleProfileChange, hb]

/-- Witness for C7: a provider whose `getChildren` throws an `Error` leads to
a logged message and a normal return. -/
theorem handleProfileChange_never_throws_witness :
    handleProfileChange
        [{ childrenOutcome := Except.error (JsThrown.errObj "boom") }] none [] =
      Except.ok ["boom"] :=
  handleProfileChange_never_throws.2
    { childrenOutcome := Except.error (JsThrown.errObj "boom") } [] none [] "boom" rfl

/-! ## Claim C6: loadNamedProfile -/

/-- **C6.** `ProfilesCache.loadNamedProfile` returns the first profile in
`allProfiles` whose name equals `name` and, when a (non-empty) type is
supplied, whose type equals it; when no such profile exists it throws an
`Error` naming the missing profile if `optional` is false, and returns
`undefined` if `optional` is true. (The hypothesis excludes the degenerate
empty-string type, which JS truthiness treats like an absent argument.) -/
theorem loadNamedProfile_spec (allProfiles : List IProfileLoaded)
    (name : String) (type? : Option String) (optional : Bool)
    (hT : ∀ t, type? = some t → t ≠ "") :
    loadNamedProfile allProfiles name type? optional =
      loadNamedProfileSpec allProfiles name type? optional := by
  cases type? with
  | none =>
    unfold loadNamedProfile loadNamedProfileSpec
    cases allProfiles.find? (fun p => p.name = name && true) with
    | some p => rfl
    | none => cases optional <;> rfl
  | some t =>
    have ht : t ≠ "" := hT t rfl
    unfold loadNamedProfile loadNamedProfileSpec
    have hpred :
        (fun (p : IProfileLoaded) => p.name = name && (t = "" || p.type = t)) =
        (fun (p : IProfileLoaded) => p.name = name && p.type = t) := by
      funext p
      simp [ht]
    simp only [hpred]
    cases allProfiles.find? (fun p => p.name = name && p.type = t) with
    | some p => rfl
    | none => cases optional <;> rfl

/-- Witness for C6: the named profile is found, and a missing profile throws
the naming error. -/
theorem loadNamedProfile_spec_witness :
    loadNamedProfile
        [getProfileLoaded "lpar1" "zosmf" [("host", JSVal.str "h1")]]
        "lpar1" (some "zosmf") false =
      loadNamedProfileSpec
        [getProfileLoaded "lpar1" "zosmf" [("host", JSVal.str "h1")]]
        "lpar1" (some "zosmf") false :=
  loadNamedProfile_spec
    [getProfileLoaded "lpar1" "zosmf" [("host", JSVal.str "h1")]]
    "lpar1" (some "zosmf") false (by intro t ht; cases ht; decide)

/-! ## Claim C5: getMergedAttrs -/

/-- **C5.** `ProfilesCache.getMergedAttrs` returns an object mapping each
known merged argument's `argName` to its `argValue` (as produced by the
library's `mergeArgsForProfile` with secure values retrieved): properties of
known arguments read back their values, other properties are absent, and the
empty object is returned when `profAttrs` is null. (The hypothesis is the
library guarantee that known argument names are not repeated.) -/
theorem getMergedAttrs_spec (info : ProfileInfo) (a : ProfAttrs)
    (hNodup : ((info.mergeArgsForProfile a).map (fun arg => arg.argName)).Nodup) :
    getMergedAttrs info none = [] ∧
    (∀ arg ∈ info.mergeArgsForProfile a,
      getProp (getMergedAttrs info (some a)) arg.argName = some arg.argValue) ∧
    (∀ k : String, (∀ arg ∈ info.mergeArgsForProfile a, arg.argName ≠ k) →
      getProp (getMergedAttrs info (some a)) k = none) := by
  refine ⟨rfl, ?_, ?_⟩
  · intro arg hmem
    simp only [getMergedAttrs]
    exact getProp_foldl_setProp_mem (info.mergeArgsForProfile a) [] arg hmem hNodup
  · intro k hk
    simp only [getMergedAttrs]
    rw [getProp_foldl_setProp_notMem (info.mergeArgsForProfile a) [] k hk]
    rfl

/-- Witness for C5 at the concrete sample library behaviour. -/
theorem getMergedAttrs_spec_witness :
    getMergedAttrs sampleInfo none = [] ∧
      getProp (getMergedAttrs sampleInfo (some sampleAttrs)) "host" =
        some (JSVal.str "h1") :=
  ⟨(getMergedAttrs_spec sampleInfo sampleAttrs (by decide)).1,
    (getMergedAttrs_spec sampleInfo sampleAttrs (by decide)).2.1
      { argName := "host", argValue := JSVal.str "h1" } (by decide)⟩

/-! ## Claim C2: fetchBaseProfile -/

theorem parentLoopL_eq_find (ok : List Char → Bool) :
    ∀ (n : Nat) (temp : List Char), temp.length ≤ n → ∀ parent : List Char,
      parentLoopL ok parent temp =
        ((ancestorChainL temp).find? ok).getD parent := by
  intro n
  induction n with
  | zero =>
    intro temp h parent
    have htemp : temp = [] := List.eq_nil_of_length_eq_zero (Nat.le_zero.mp h)
    subst htemp
    rw [parentLoopL, ancestorChainL]
    simp
  | succ m ih =>
    intro temp h parent
    by_cases hd : '.' ∈ temp
    · rw [parentLoopL, ancestorChainL]
      simp only [hd, dif_pos]
      by_cases hok : ok (jsSliceToLastDotL temp)
      · simp [hok, List.find?]
      · simp only [hok, if_false, List.find?_cons, hok, Bool.false_eq_true]
        exact ih (jsSliceToLastDotL temp)
          (Nat.le_of_lt_succ (Nat.lt_of_lt_of_le (jsSliceToLastDotL_length_lt hd) h))
          parent
    · rw [parentLoopL, ancestorChainL]
      simp [hd]

/-- **C2.** `ProfilesCache.fetchBaseProfile` behaves as described: for a
nested profile name (containing a period), when there is no default base
profile or the default base profile's secure properties do not include
`tokenValue`, it returns a profile of type `"base"` named by the deepest
ancestor of the given name whose `tokenValue` appears among the
configuration's secure fields (or the immediate parent when no ancestor
does); otherwise it returns the merged default base profile; and it returns
`undefined` when no default base profile exists and the name contains no
period. -/
theorem fetchBaseProfile_spec (info : ProfileInfo)
    (profileName : Option String) :
    fetchBaseProfile info profileName = fetchBaseProfileSpec info profileName := by
  have hparent : ∀ nm : String,
      getParentProfileForToken nm info.teamConfig =
        deepestSecureAncestor info.teamConfig nm := by
    intro nm
    unfold getParentProfileForToken deepestSecureAncestor
    rw [parentLoopL_eq_find (secureTokenOk info.teamConfig) nm.toList.length
      nm.toList (Nat.le_refl _) (jsSliceToLastDotL nm.toList)]
  cases profileName with
  | none =>
    unfold fetchBaseProfile fetchBaseProfileSpec
    simp
  | some n =>
    by_cases hdot : containsDot n
    · cases hbase : info.getDefaultProfile "base" with
      | none =>
        unfold fetchBaseProfile fetchBaseProfileSpec
        simp [hdot, hbase, hparent n]
      | some attrs =>
        by_cases hsec :
            "tokenValue" ∈ info.teamConfig.securePropsForProfile attrs.profName
        · have hc : (info.teamConfig.securePropsForProfile attrs.profName).contains
              "tokenValue" = true := by simpa using hsec
          unfold fetchBaseProfile fetchBaseProfileSpec
          simp [hdot, hbase, hsec, hc]
        · have hc : (info.teamConfig.securePropsForProfile attrs.profName).contains
              "tokenValue" = false := by simpa using hsec
          unfold fetchBaseProfile fetchBaseProfileSpec
          simp [hdot, hbase, hc, hsec, hparent n]
    · unfold fetchBaseProfile fetchBaseProfileSpec
      simp [hdot]

/-! ## Claim C9: parseFavorites -/

theorem jsIdx_eq_none_iff (c : Char) (l : List Char) :
    jsIdx c l = none ↔ c ∉ l := by
  induction l with
  | nil => simp [jsIdx]
  | cons x xs ih =>
    by_cases hx : x = c
    · simp [jsIdx, hx]
    · simp only [jsIdx, hx, if_false, List.mem_cons]
      cases h : jsIdx c xs with
      | none =>
        simp only [Option.map_none']
        constructor
        · intro _
          push_neg
          exact ⟨fun hc => hx hc.symm, ih.mp h⟩
        · intro _
          trivial
      | some n =>
        simp only [Option.map_some']
        constructor
        · intro hcon; cases hcon
        · intro hcon
          push_neg at hcon
          have hmem := ih.mpr hcon.2
          rw [hmem] at h
          cases h

theorem jsIdx_append_cons (c : Char) (l₁ l₂ : List Char) (h : c ∉ l₁) :
    jsIdx c (l₁ ++ c :: l₂) = some l₁.length := by
  induction l₁ with
  | nil => simp [jsIdx]
  | cons x xs ih =>
    have hx : ¬ x = c := fun hc => h (by simp [hc])
    have ihx := ih (fun hm => h (by simp [hm]))
    simp only [List.cons_append, jsIdx, hx, if_false]
    rw [show xs.append (c :: l₂) = xs ++ c :: l₂ from rfl, ihx]
    rfl

theorem jsIndexOf_append_cons (c : Char) (l₁ l₂ : List Char) (h : c ∉ l₁) :
    jsIndexOf (l₁ ++ c :: l₂) c = (l₁.length : Int) := by
  simp [jsIndexOf, jsIdx_append_cons c l₁ l₂ h]

theorem jsIndexOf_eq_neg_one_iff (c : Char) (l : List Char) :
    jsIndexOf l c = -1 ↔ c ∉ l := by
  rw [← jsIdx_eq_none_iff]
  unfold jsIndexOf
  cases h : jsIdx c l with
  | none => simp
  | some n => simp [h]

theorem jsSubstring_nat (l : List Char) (na nb : Nat) (h1 : na ≤ nb)
    (h2 : nb ≤ l.length) :
    jsSubstring l (na : Int) (nb : Int) = (l.take nb).drop na := by
  unfold jsSubstring
  have hna : (na : Int).toNat = na := Int.toNat_ofNat na
  have hnb : (nb : Int).toNat = nb := Int.toNat_ofNat nb
  rw [hna, hnb, Nat.min_eq_left (Nat.le_trans h1 h2), Nat.min_eq_left h2,
    if_pos h1]

theorem jsSubstringFrom_nat (l : List Char) (na : Nat) (h : na ≤ l.length) :
    jsSubstringFrom l (na : Int) = l.drop na := by
  unfold jsSubstringFrom
  rw [jsSubstring_nat l na l.length h (Nat.le_refl _), List.take_length]

theorem parseFavoriteLine_shape (p rest : List Char) (line : String)
    (hline : line.toList = '[' :: (p ++ ']' :: ':' :: rest))
    (hp : ']' ∉ p) :
    parseFavoriteLine line =
      if trimL rest = [] then none
      else
        some
          { profileName := p.asString
            label := (trimL (jsSubstring (trimL rest) 0
              (jsIndexOf (trimL rest) '{'))).asString
            contextValue :=
              if jsIndexOf (trimL rest) '{' > 0 then
                some (jsSubstring (trimL rest) (jsIndexOf (trimL rest) '{' + 1)
                  (jsIndexOf (trimL rest) '}')).asString
              else none } := by
  have hsplit : line.toList = ('[' :: p) ++ ']' :: (':' :: rest) := by
    rw [hline]; simp
  have hnotin : ']' ∉ ('[' :: p) := by
    intro hmem
    rcases List.mem_cons.mp hmem with hc | hc
    · cases hc
    · exact hp hc
  have hcsb : jsIndexOf line.toList ']' = ((p.length + 1 : Nat) : Int) := by
    rw [hsplit, jsIndexOf_append_cons ']' ('[' :: p) (':' :: rest) hnotin]
    simp
  have hlen : line.toList.length = p.length + 3 + rest.length := by
    rw [hline]; simp; omega
  have hhead : line.toList.head? = some '[' := by rw [hline]; rfl
  have hprof : jsSubstring line.toList 1 ((p.length + 1 : Nat) : Int) = p := by
    have h1 : (1 : Int) = ((1 : Nat) : Int) := rfl
    rw [h1, jsSubstring_nat line.toList 1 (p.length + 1) (by omega) (by omega)]
    have htake : line.toList.take (p.length + 1) = '[' :: p := by
      have : line.toList.take (p.length + 1) =
          (('[' :: p) ++ ']' :: (':' :: rest)).take ('[' :: p).length := by
        rw [hsplit]; simp
      rw [this, List.take_left]
    rw [htake]
    rfl
  have hrem : jsSubstringFrom line.toList (((p.length + 1 : Nat) : Int) + 2) =
      rest := by
    have hc : (((p.length + 1 : Nat) : Int) + 2) = ((p.length + 3 : Nat) : Int) := by
      push_cast; ring
    rw [hc, jsSubstringFrom_nat line.toList (p.length + 3) (by omega)]
    have hsplit2 : line.toList = (('[' :: p) ++ [']', ':']) ++ rest := by
      rw [hline]; simp
    have hlen2 : (('[' :: p) ++ [']', ':']).length = p.length + 3 := by
      simp
    rw [hsplit2, ← hlen2, List.drop_left]
  have hne : ¬ (((p.length + 1 : Nat) : Int) = -1) := by omega
  unfold parseFavoriteLine
  simp only [hcsb, hhead, hprof, hrem, hne, decide_False, decide_True, Bool.not_true,
    Bool.false_or, Bool.false_eq_true, if_false]
  by_cases hempty : trimL rest = []
  · simp [hempty]
  · have hlennz : (trimL rest).length ≠ 0 := fun hc => hempty (List.length_eq_zero.mp hc)
    simp [hempty, hlennz]

/-- **C9.** `SharedUtils.parseFavorites` never throws and returns no null
entries (it is the per-line parse filtered of `null`s); a line is dropped
exactly when it does not start with `"["`, contains no `"]"`, or has nothing
after the bracketed prefix; and for every kept line of the form
`[profile]: label{context}` the entry's `profileName` is the text between the
square brackets and its `contextValue` is the text between the braces when
`"{"` occurs at a positive index in the trimmed remainder, `undefined`
otherwise. -/
theorem parseFavorites_characterization :
    (∀ lines : List String,
      parseFavorites lines = lines.filterMap parseFavoriteLine) ∧
    (∀ line : String,
      parseFavoriteLine line = none ↔
        (line.toList.head? ≠ some '[' ∨ ']' ∉ line.toList ∨
          trimL (jsSubstringFrom line.toList
            (jsIndexOf line.toList ']' + 2)) = [])) ∧
    (∀ (line : String) (p rest : List Char),
      line.toList = '[' :: (p ++ ']' :: ':' :: rest) → ']' ∉ p →
      trimL rest ≠ [] →
      ∃ f : FavoriteData,
        parseFavoriteLine line = some f ∧
        f.profileName = p.asString ∧
        ('{' ∉ trimL rest → f.contextValue = none) ∧
        ((trimL rest).head? = some '{' → f.contextValue = none) ∧
        (∀ a c : List Char,
          trimL rest = a ++ '{' :: (c ++ ['}']) → a ≠ [] → '{' ∉ a →
          '}' ∉ a → '}' ∉ c → f.contextValue = some c.asString)) := by
  refine ⟨fun lines => rfl, ?_, ?_⟩
  · intro line
    by_cases h1 : line.toList.head? = some '['
    · have h1d : line.data.head? = some '[' := h1
      by_cases h2 : ']' ∈ line.toList
      · have hne : ¬ jsIndexOf line.toList ']' = -1 :=
          fun hc => ((jsIndexOf_eq_neg_one_iff ']' line.toList).mp hc) h2
        have hned : ¬ jsIndexOf line.data ']' = -1 := hne
        by_cases h3 : trimL (jsSubstringFrom line.toList
            (jsIndexOf line.toList ']' + 2)) = []
        · have h3d : trimL (jsSubstringFrom line.data
              (jsIndexOf line.data ']' + 2)) = [] := h3
          have hval : parseFavoriteLine line = none := by
            unfold parseFavoriteLine
            simp [h1d, hned, h3d]
          rw [hval]
          exact iff_of_true rfl (Or.inr (Or.inr h3))
        · have h3d : ¬ trimL (jsSubstringFrom line.data
              (jsIndexOf line.data ']' + 2)) = [] := h3
          have hval : ¬ parseFavoriteLine line = none := by
            unfold parseFavoriteLine
            simp [h1d, hned, h3d, List.length_eq_zero]
          refine iff_of_false hval ?_
          intro hcon
          rcases hcon with hc | hc | hc
          · exact hc h1
          · exact hc h2
          · exact h3 hc
      · have heq : jsIndexOf line.toList ']' = -1 :=
          (jsIndexOf_eq_neg_one_iff ']' line.toList).mpr h2
        have heqd : jsIndexOf line.data ']' = -1 := heq
        have hval : parseFavoriteLine line = none := by
          unfold parseFavoriteLine
          simp [heqd]
        rw [hval]
        exact iff_of_true rfl (Or.inr (Or.inl h2))
    · have h1d : ¬ line.data.head? = some '[' := h1
      have hval : parseFavoriteLine line = none := by
        unfold parseFavoriteLine
        simp [h1d]
      rw [hval]
      exact iff_of_true rfl (Or.inl h1)
  · intro line p rest hline hp hne
    have hshape := parseFavoriteLine_shape p rest line hline hp
    rw [if_neg hne] at hshape
    refine ⟨_, hshape, rfl, ?_, ?_, ?_⟩
    · intro hnot
      have heq : jsIndexOf (trimL rest) '{' = -1 :=
        (jsIndexOf_eq_neg_one_iff '{' (trimL rest)).mpr hnot
      show (if jsIndexOf (trimL rest) '{' > 0 then
        some (jsSubstring (trimL rest) (jsIndexOf (trimL rest) '{' + 1)
          (jsIndexOf (trimL rest) '}')).asString else none) = none
      rw [heq]
      norm_num
    · intro hhd
      obtain ⟨t, ht⟩ : ∃ t, trimL rest = '{' :: t := by
        cases hcase : trimL rest with
        | nil => rw [hcase] at hhd; cases hhd
        | cons c0 t0 =>
          rw [hcase] at hhd
          simp only [List.head?_cons, Option.some_inj] at hhd
          exact ⟨t0, by rw [hhd]⟩
      have heq : jsIndexOf (trimL rest) '{' = 0 := by
        rw [ht]
        have h0 : ('{' :: t) = ([] : List Char) ++ '{' :: t := rfl
        rw [h0, jsIndexOf_append_cons '{' [] t (by simp)]
        rfl
      show (if jsIndexOf (trimL rest) '{' > 0 then
        some (jsSubstring (trimL rest) (jsIndexOf (trimL rest) '{' + 1)
          (jsIndexOf (trimL rest) '}')).asString else none) = none
      rw [heq]
      norm_num
    · intro a c hrem hane ha1 ha2 hc
      have hocb : jsIndexOf (trimL rest) '{' = (a.length : Int) := by
        rw [hrem]
        exact jsIndexOf_append_cons '{' a (c ++ ['}']) ha1
      have hpos : (0 : Int) < (a.length : Int) := by
        have : 0 < a.length := List.length_pos.mpr hane
        exact_mod_cast this
      have hsplit3 : trimL rest = (a ++ '{' :: c) ++ '}' :: [] := by
        rw [hrem]; simp
      have hnotin3 : '}' ∉ (a ++ '{' :: c) := by
        intro hmem
        rcases List.mem_append.mp hmem with hm | hm
        · exact ha2 hm
        · rcases List.mem_cons.mp hm with hm1 | hm1
          · cases hm1
          · exact hc hm1
      have hclose : jsIndexOf (trimL rest) '}' =
          ((a.length + 1 + c.length : Nat) : Int) := by
        rw [hsplit3, jsIndexOf_append_cons '}' (a ++ '{' :: c) [] hnotin3]
        congr 1
        simp
        omega
      have hremlen : (trimL rest).length = a.length + c.length + 2 := by
        rw [hrem]
        simp
        omega
      have hsub : jsSubstring (trimL rest) ((a.length : Int) + 1)
          ((a.length + 1 + c.length : Nat) : Int) = c := by
        have hc1 : ((a.length : Int) + 1) = ((a.length + 1 : Nat) : Int) := by
          push_cast; ring
        rw [hc1, jsSubstring_nat (trimL rest) (a.length + 1)
          (a.length + 1 + c.length) (by omega) (by omega)]
        have h5 : trimL rest = (a ++ ['{']) ++ (c ++ ['}']) := by
          rw [hrem]; simp
        have hlen5 : (a ++ ['{']).length = a.length + 1 := by simp
        have htake : (trimL rest).take (a.length + 1 + c.length) =
            (a ++ ['{']) ++ c := by
          rw [h5]
          have : a.length + 1 + c.length = (a ++ ['{']).length + c.length := by
            rw [hlen5]
          rw [this, List.take_append]
          congr 1
          exact List.take_left c ['}']
        rw [htake, ← hlen5, List.drop_left]
      show (if jsIndexOf (trimL rest) '{' > 0 then
        some (jsSubstring (trimL rest) (jsIndexOf (trimL rest) '{' + 1)
          (jsIndexOf (trimL rest) '}')).asString else none) = some c.asString
      rw [hocb, hclose, if_pos hpos, hsub]

/-- Witness for C9 at the concrete line `[p]: label{ctx}`. -/
theorem parseFavorites_characterization_witness :
    (parseFavoriteLine "[p]: label{ctx}").map (fun f => f.profileName) =
        some "p" ∧
      (parseFavoriteLine "[p]: label{ctx}").map (fun f => f.contextValue) =
        some (some "ctx") := by
  obtain ⟨f, hf, hprof, _, _, hctx⟩ :=
    parseFavorites_characterization.2.2 "[p]: label{ctx}" ['p']
      (' ' :: "label{ctx}".toList) (by decide) (by decide) (by decide)
  have hc := hctx "label".toList "ctx".toList (by decide) (by decide)
    (by decide) (by decide) (by decide)
  rw [hf]
  refine ⟨?_, ?_⟩
  · rw [Option.map_some', hprof]
    rfl
  · rw [Option.map_some', hc]
    rfl

/-! ## Lemmas towards claim C1 -/

theorem strStartsWith_dollar_ne_empty {u : String}
    (h : strStartsWith u "$" = true) : u ≠ "" := by
  intro hc
  rw [hc] at h
  exact absurd h (by decide)

theorem getProp_envUpdatePassword_ne (env : String → Option String)
    (q : IProfile) (k : String) (h : k ≠ "password") :
    getProp (envUpdatePassword env q) k = getProp q k := by
  unfold envUpdatePassword
  cases hpw : getProp q "password" with
  | none => rfl
  | some v =>
    cases v with
    | str pw =>
      simp only []
      by_cases hst : strStartsWith pw "$"
      · rw [if_pos hst]
        cases henv : envVarName pw with
        | none => rfl
        | some v' =>
          simp only []
          cases he : env v' with
          | none => rfl
          | some ev =>
            simp only []
            by_cases hev : ev = ""
            · rw [if_pos hev]
            · rw [if_neg hev]
              exact getProp_setProp_ne q "password" k (JSVal.str ev) h
      · rw [if_neg hst]
    | undefined => rfl
    | null => rfl
    | num n => rfl
    | bool b => rfl

theorem getProp_envUpdateProfile_ne (env : String → Option String)
    (p : IProfile) (k : String) (hu : k ≠ "user") (hp : k ≠ "password") :
    getProp (envUpdateProfile env p) k = getProp p k := by
  unfold envUpdateProfile
  cases hus : getProp p "user" with
  | none => exact getProp_envUpdatePassword_ne env p k hp
  | some v =>
    cases v with
    | str u =>
      simp only []
      by_cases hst : strStartsWith u "$"
      · rw [if_pos hst]
        cases henv : envVarName u with
        | none => rfl
        | some v' =>
          simp only []
          cases he : env v' with
          | none => rfl
          | some ev =>
            simp only []
            by_cases hev : ev = ""
            · rw [if_pos hev]
            · rw [if_neg hev,
                getProp_envUpdatePassword_ne env _ k hp,
                getProp_setProp_ne p "user" k (JSVal.str ev) hu]
      · rw [if_neg hst]
        exact getProp_envUpdatePassword_ne env p k hp
    | undefined => exact getProp_envUpdatePassword_ne env p k hp
    | null => exact getProp_envUpdatePassword_ne env p k hp
    | num n => exact getProp_envUpdatePassword_ne env p k hp
    | bool b => exact getProp_envUpdatePassword_ne env p k hp

theorem propTruthy_password_envUpdatePassword (env : String → Option String)
    (q : IProfile) :
    propTruthy (getProp (envUpdatePassword env q) "password") =
      propTruthy (getProp q "password") := by
  unfold envUpdatePassword
  cases hpw : getProp q "password" with
  | none => rw [hpw]
  | some v =>
    cases v with
    | str pw =>
      simp only []
      by_cases hst : strStartsWith pw "$"
      · rw [if_pos hst]
        cases henv : envVarName pw with
        | none => rw [hpw]
        | some v' =>
          simp only []
          cases he : env v' with
          | none => rw [hpw]
          | some ev =>
            simp only []
            by_cases hev : ev = ""
            · rw [if_pos hev, hpw]
            · rw [if_neg hev, getProp_setProp_self q "password" (JSVal.str ev)]
              have h1 : pw ≠ "" := strStartsWith_dollar_ne_empty hst
              have h2 : ev ≠ "" := hev
              simp [propTruthy, normProp, jsTruthy, h1, h2]
      · rw [if_neg hst, hpw]
    | undefined => rw [hpw]
    | null => rw [hpw]
    | num n => rw [hpw]
    | bool b => rw [hpw]

theorem propTruthy_user_envUpdateProfile (env : String → Option String)
    (p : IProfile) :
    propTruthy (getProp (envUpdateProfile env p) "user") =
      propTruthy (getProp p "user") := by
  unfold envUpdateProfile
  cases hus : getProp p "user" with
  | none => rw [getProp_envUpdatePassword_ne env p "user" (by decide), hus]
  | some v =>
    cases v with
    | str u =>
      simp only []
      by_cases hst : strStartsWith u "$"
      · rw [if_pos hst]
        cases henv : envVarName u with
        | none => rw [hus]
        | some v' =>
          simp only []
          cases he : env v' with
          | none => rw [hus]
          | some ev =>
            simp only []
            by_cases hev : ev = ""
            · rw [if_pos hev, hus]
            · rw [if_neg hev,
                getProp_envUpdatePassword_ne env _ "user" (by decide),
                getProp_setProp_self p "user" (JSVal.str ev)]
              have h1 : u ≠ "" := strStartsWith_dollar_ne_empty hst
              have h2 : ev ≠ "" := hev
              simp [propTruthy, normProp, jsTruthy, h1, h2]
      · rw [if_neg hst,
          getProp_envUpdatePassword_ne env p "user" (by decide), hus]
    | undefined => rw [getProp_envUpdatePassword_ne env p "user" (by decide), hus]
    | null => rw [getProp_envUpdatePassword_ne env p "user" (by decide), hus]
    | num n => rw [getProp_envUpdatePassword_ne env p "user" (by decide), hus]
    | bool b => rw [getProp_envUpdatePassword_ne env p "user" (by decide), hus]

theorem propTruthy_password_envUpdateProfile (env : String → Option String)
    (p : IProfile) :
    propTruthy (getProp (envUpdateProfile env p) "password") =
      propTruthy (getProp p "password") := by
  unfold envUpdateProfile
  cases hus : getProp p "user" with
  | none => exact propTruthy_password_envUpdatePassword env p
  | some v =>
    cases v with
    | str u =>
      simp only []
      by_cases hst : strStartsWith u "$"
      · rw [if_pos hst]
        cases henv : envVarName u with
        | none => rfl
        | some v' =>
          simp only []
          cases he : env v' with
          | none => rfl
          | some ev =>
            simp only []
            by_cases hev : ev = ""
            · rw [if_pos hev]
            · rw [if_neg hev, propTruthy_password_envUpdatePassword env _,
                getProp_setProp_ne p "user" "password" (JSVal.str ev) (by decide)]
      · rw [if_neg hst]
        exact propTruthy_password_envUpdatePassword env p
    | undefined => exact propTruthy_password_envUpdatePassword env p
    | null => exact propTruthy_password_envUpdatePassword env p
    | num n => exact propTruthy_password_envUpdatePassword env p
    | bool b => exact propTruthy_password_envUpdatePassword env p

theorem getProp_checkMerging_ne (base : Option IProfileLoaded)
    (q : IProfileLoaded) (k : String) (h1 : k ≠ "tokenType")
    (h2 : k ≠ "tokenValue") :
    getProp (checkMergingConfigSingleProfile base q).profile k =
      getProp q.profile k := by
  unfold checkMergingConfigSingleProfile
  by_cases hs : shouldRemoveTokenFromProfile q base
  · rw [if_pos hs]
    show getProp (setProp (setProp q.profile "tokenValue" JSVal.undefined)
      "tokenType" JSVal.undefined) k = getProp q.profile k
    rw [getProp_setProp_ne _ "tokenType" k _ h1,
      getProp_setProp_ne _ "tokenValue" k _ h2]
  · rw [if_neg hs]

theorem tokenTypeStartsWithApiml_envUpdate (env : String → Option String)
    (q : IProfileLoaded) :
    tokenTypeStartsWithApiml (envUpdateLoaded env q) =
      tokenTypeStartsWithApiml q := by
  unfold tokenTypeStartsWithApiml
  rw [show getProp (envUpdateLoaded env q).profile "tokenType" =
      getProp q.profile "tokenType" from
    getProp_envUpdateProfile_ne env q.profile "tokenType" (by decide) (by decide)]

theorem shouldRemove_fixup_false (env : String → Option String)
    (base : Option IProfileLoaded) (q : IProfileLoaded) :
    shouldRemoveTokenFromProfile
      (envUpdateLoaded env (checkMergingConfigSingleProfile base q))
      (Option.map
        (fun b => envUpdateLoaded env (checkMergingConfigSingleProfile base b))
        base) = false := by
  by_cases hs : shouldRemoveTokenFromProfile q base = true
  · have htt : getProp (envUpdateLoaded env
        (checkMergingConfigSingleProfile base q)).profile "tokenType" =
        some JSVal.undefined := by
      show getProp (envUpdateProfile env
        (checkMergingConfigSingleProfile base q).profile) "tokenType" = _
      rw [getProp_envUpdateProfile_ne env _ "tokenType" (by decide) (by decide)]
      unfold checkMergingConfigSingleProfile
      rw [if_pos hs]
      exact getProp_setProp_self _ "tokenType" JSVal.undefined
    unfold shouldRemoveTokenFromProfile tokenTypeStartsWithApiml
    rw [htt]
    simp
  · have hs' : shouldRemoveTokenFromProfile q base = false :=
      Bool.eq_false_iff.mpr hs
    have hrm : checkMergingConfigSingleProfile base q = q := by
      unfold checkMergingConfigSingleProfile
      rw [if_neg hs]
    rw [hrm]
    have hbHost : chainProp (Option.map
        (fun b => envUpdateLoaded env (checkMergingConfigSingleProfile base b))
        base) "host" = chainProp base "host" := by
      cases base with
      | none => rfl
      | some b =>
        show getProp (envUpdateProfile env
          (checkMergingConfigSingleProfile (some b) b).profile) "host" =
          getProp b.profile "host"
        rw [getProp_envUpdateProfile_ne env _ "host" (by decide) (by decide),
          getProp_checkMerging_ne (some b) b "host" (by decide) (by decide)]
    have hbPort : chainProp (Option.map
        (fun b => envUpdateLoaded env (checkMergingConfigSingleProfile base b))
        base) "port" = chainProp base "port" := by
      cases base with
      | none => rfl
      | some b =>
        show getProp (envUpdateProfile env
          (checkMergingConfigSingleProfile (some b) b).profile) "port" =
          getProp b.profile "port"
        rw [getProp_envUpdateProfile_ne env _ "port" (by decide) (by decide),
          getProp_checkMerging_ne (some b) b "port" (by decide) (by decide)]
    have hHost : getProp (envUpdateLoaded env q).profile "host" =
        getProp q.profile "host" :=
      getProp_envUpdateProfile_ne env q.profile "host" (by decide) (by decide)
    have hPort : getProp (envUpdateLoaded env q).profile "port" =
        getProp q.profile "port" :=
      getProp_envUpdateProfile_ne env q.profile "port" (by decide) (by decide)
    have hUser : propTruthy (getProp (envUpdateLoaded env q).profile "user") =
        propTruthy (getProp q.profile "user") :=
      propTruthy_user_envUpdateProfile env q.profile
    have hPass : propTruthy
        (getProp (envUpdateLoaded env q).profile "password") =
        propTruthy (getProp q.profile "password") :=
      propTruthy_password_envUpdateProfile env q.profile
    have hTok := tokenTypeStartsWithApiml_envUpdate env q
    have heq : shouldRemoveTokenFromProfile (envUpdateLoaded env q)
        (Option.map
          (fun b => envUpdateLoaded env (checkMergingConfigSingleProfile base b))
          base) = shouldRemoveTokenFromProfile q base := by
      unfold shouldRemoveTokenFromProfile
      rw [hbHost, hbPort, hHost, hPort, hUser, hPass, hTok]
    rw [heq]
    exact hs'

theorem mapGet_map_value {α β : Type} (m : List (String × α)) (f : α → β)
    (k : String) :
    mapGet (m.map (fun kv => (kv.1, f kv.2))) k = (mapGet m k).map f := by
  induction m with
  | nil => rfl
  | cons kv rest ih =>
    by_cases hk : kv.1 = k
    · simp [mapGet, List.find?, hk]
    · simp only [List.map_cons, mapGet, List.find?, decide_eq_false hk,
        Bool.false_eq_true, if_false] at ih ⊢
      exact ih

/-! ## Lemmas towards claims C3 and C4 -/

theorem refresh_allProfiles_eq (st : CacheState) (info : ProfileInfo)
    (reg : List String) (env : String → Option String) :
    (refresh st info reg env).allProfiles =
      (refreshScanAcc st info reg).newAll.map (fun p =>
        envUpdateLoaded env
          (if (refreshByTypeClean st info reg).any (fun kv => kv.2.contains p) then
            checkMergingConfigSingleProfile (refreshBase st info reg) p
          else p)) :=
  rfl

theorem refresh_profilesByType_eq (st : CacheState) (info : ProfileInfo)
    (reg : List String) (env : String → Option String) :
    (refresh st info reg env).profilesByType =
      (refreshByTypeClean st info reg).map (fun kv => (kv.1, kv.2.map (fun p =>
        if (refreshScanAcc st info reg).newAll.contains p then
          envUpdateLoaded env
            (checkMergingConfigSingleProfile (refreshBase st info reg) p)
        else checkMergingConfigSingleProfile (refreshBase st info reg) p))) :=
  rfl

theorem refresh_defaults_eq (st : CacheState) (info : ProfileInfo)
    (reg : List String) (env : String → Option String) :
    (refresh st info reg env).defaultProfileByType =
      (refreshDefaultsClean st info reg).map
        (fun kv => (kv.1, refreshFixup st info reg env kv.2)) :=
  rfl

theorem refresh_validation_eq (st : CacheState) (info : ProfileInfo)
    (reg : List String) (env : String → Option String) :
    (refresh st info reg env).profilesForValidation = [] :=
  rfl

theorem refreshFixup_type (st : CacheState) (info : ProfileInfo)
    (reg : List String) (env : String → Option String) (p : IProfileLoaded) :
    (refreshFixup st info reg env p).type = p.type := by
  unfold refreshFixup envUpdateLoaded checkMergingConfigSingleProfile
  by_cases hs : shouldRemoveTokenFromProfile p (refreshBase st info reg)
  · rw [if_pos hs]
  · rw [if_neg hs]

theorem mapGet_mapSet_self {α : Type} (m : List (String × α)) (k : String)
    (v : α) : mapGet (mapSet m k v) k = some v := by
  unfold mapSet
  by_cases h : m.any (fun kv => kv.1 = k)
  · simp only [h, if_true]
    induction m with
    | nil => simp at h
    | cons kv rest ih =>
      by_cases hk : kv.1 = k
      · simp [mapGet, List.find?, hk]
      · simp only [List.any_cons, hk, decide_eq_true_eq, Bool.false_or] at h
        simp only [List.map_cons, if_neg hk]
        simpa [mapGet, List.find?, hk] using ih h
  · simp only [h, if_false]
    simp only [List.any_eq_true, decide_eq_true_eq, not_exists, not_and] at h
    induction m with
    | nil => simp [mapGet]
    | cons kv rest ih =>
      have hk : ¬ kv.1 = k := h kv (by simp)
      simp only [List.cons_append]
      simp only [mapGet, List.find?, decide_eq_true_eq] at ih ⊢
      simp only [hk, decide_eq_false hk, Bool.false_eq_true, if_false]
      exact ih (fun x hx => h x (by simp [hx]))

theorem mapGet_overwrite_ne {α : Type} (m : List (String × α)) (k k' : String)
    (v : α) (h : k' ≠ k) :
    mapGet (m.map (fun kv => if kv.1 = k then (k, v) else kv)) k' =
      mapGet m k' := by
  induction m with
  | nil => rfl
  | cons kv rest ih =>
    by_cases hk : kv.1 = k
    · simp only [List.map_cons, if_pos hk]
      simp only [mapGet, List.find?, decide_eq_false (Ne.symm h), decide_eq_false
        (hk ▸ Ne.symm h : ¬ kv.1 = k'), Bool.false_eq_true, if_false]
      exact ih
    · simp only [List.map_cons, if_neg hk]
      by_cases hk' : kv.1 = k'
      · simp [mapGet, List.find?, hk']
      · simp only [mapGet, List.find?, decide_eq_false hk', Bool.false_eq_true,
          if_false]
        exact ih

theorem mapGet_append_single_ne {α : Type} (m : List (String × α))
    (k k' : String) (v : α) (h : k' ≠ k) :
    mapGet (m ++ [(k, v)]) k' = mapGet m k' := by
  induction m with
  | nil => simp [mapGet, List.find?, Ne.symm h]
  | cons kv rest ih =>
    by_cases hk' : kv.1 = k'
    · simp [mapGet, List.find?, hk']
    · simp only [List.cons_append, mapGet, List.find?, decide_eq_false hk',
        Bool.false_eq_true, if_false] at ih ⊢
      exact ih

theorem mapGet_mapSet_ne {α : Type} (m : List (String × α)) (k k' : String)
    (v : α) (h : k' ≠ k) : mapGet (mapSet m k v) k' = mapGet m k' := by
  unfold mapSet
  by_cases hmem : m.any (fun kv => kv.1 = k)
  · simpa only [hmem, if_true] using mapGet_overwrite_ne m k k' v h
  · simpa only [hmem, if_false] using mapGet_append_single_ne m k k' v h

theorem mem_mapSet {α : Type} {m : List (String × α)} {k k' : String}
    {v v' : α} (h : (k', v') ∈ mapSet m k v) :
    (k' = k ∧ v' = v) ∨ ((k', v') ∈ m ∧ k' ≠ k) := by
  unfold mapSet at h
  by_cases hmem : m.any (fun kv => kv.1 = k)
  · rw [if_pos hmem] at h
    rcases List.mem_map.mp h with ⟨kv, hkv, heq⟩
    by_cases hk : kv.1 = k
    · rw [if_pos hk] at heq
      exact Or.inl ⟨(Prod.mk.injEq _ _ _ _ ▸ heq ▸ rfl : k' = k ∧ v' = v).1,
        (Prod.mk.injEq _ _ _ _ ▸ heq ▸ rfl : k' = k ∧ v' = v).2⟩
    · rw [if_neg hk] at heq
      subst heq
      exact Or.inr ⟨hkv, hk⟩
  · rw [if_neg hmem] at h
    rcases List.mem_append.mp h with hm | hm
    · refine Or.inr ⟨hm, ?_⟩
      intro hc
      subst hc
      simp only [List.any_eq_true, decide_eq_true_eq, not_exists, not_and] at hmem
      exact hmem (k', v') hm rfl
    · rcases List.mem_singleton.mp hm with heq
      cases heq
      exact Or.inl ⟨rfl, rfl⟩

theorem mem_mapSet_self {α : Type} (m : List (String × α)) (k : String)
    (v : α) : (k, v) ∈ mapSet m k v := by
  unfold mapSet
  by_cases hmem : m.any (fun kv => kv.1 = k)
  · rw [if_pos hmem]
    rcases List.any_eq_true.mp hmem with ⟨kv, hkv, hk⟩
    simp only [decide_eq_true_eq] at hk
    refine List.mem_map.mpr ⟨kv, hkv, ?_⟩
    rw [if_pos hk]
  · rw [if_neg hmem]
    exact List.mem_append.mpr (Or.inr (List.mem_singleton.mpr rfl))

theorem mem_mapSet_of_ne {α : Type} {m : List (String × α)} {k k' : String}
    {v v' : α} (hm : (k', v') ∈ m) (h : k' ≠ k) :
    (k', v') ∈ mapSet m k v := by
  unfold mapSet
  by_cases hmem : m.any (fun kv => kv.1 = k)
  · rw [if_pos hmem]
    refine List.mem_map.mpr ⟨(k', v'), hm, ?_⟩
    rw [if_neg (by simpa using h)]
  · rw [if_neg hmem]
    exact List.mem_append.mpr (Or.inl hm)

theorem mem_foldl_mapDelete {α : Type} (dels : List String)
    (m : List (String × α)) (kv : String × α) :
    kv ∈ dels.foldl mapDelete m ↔ kv ∈ m ∧ kv.1 ∉ dels := by
  induction dels generalizing m with
  | nil => simp
  | cons d rest ih =>
    simp only [List.foldl_cons, ih (mapDelete m d), List.mem_cons]
    unfold mapDelete
    constructor
    · intro ⟨hmem, hnot⟩
      rcases List.mem_filter.mp hmem with ⟨hm, hne⟩
      simp only [decide_eq_true_eq, ne_eq] at hne
      exact ⟨hm, fun hc => hc.elim (fun h1 => hne h1) hnot⟩
    · intro ⟨hm, hnot⟩
      refine ⟨List.mem_filter.mpr ⟨hm, ?_⟩, fun hc => hnot (Or.inr hc)⟩
      simp only [decide_eq_true_eq, ne_eq]
      exact fun hc => hnot (Or.inl hc)

theorem mapGet_mapDelete_ne {α : Type} (m : List (String × α))
    (d k : String) (h : k ≠ d) : mapGet (mapDelete m d) k = mapGet m k := by
  unfold mapDelete
  induction m with
  | nil => rfl
  | cons kv tail ih =>
    by_cases hkd : kv.1 = d
    · have hk : ¬ kv.1 = k := fun hc => h (by rw [← hc, hkd])
      simp only [List.filter_cons, hkd, decide_True, ne_eq, decide_not,
        Bool.not_true, Bool.false_eq_true, if_false]
      simp only [ne_eq, decide_not] at ih
      simp only [mapGet, List.find?, decide_eq_false hk, Bool.false_eq_true,
        if_false] at ih ⊢
      exact ih
    · simp only [List.filter_cons, ne_eq, decide_not, decide_eq_false hkd,
        Bool.not_false, if_true]
      by_cases hk : kv.1 = k
      · simp [mapGet, List.find?, hk]
      · simp only [ne_eq, decide_not] at ih
        simp only [mapGet, List.find?, decide_eq_false hk, Bool.false_eq_true,
          if_false] at ih ⊢
        exact ih

theorem mapGet_foldl_mapDelete_notMem {α : Type} (dels : List String)
    (m : List (String × α)) (k : String) (h : k ∉ dels) :
    mapGet (dels.foldl mapDelete m) k = mapGet m k := by
  induction dels generalizing m with
  | nil => rfl
  | cons d rest ih =>
    have hd : k ≠ d := fun hc => h (by simp [hc])
    have hrest : k ∉ rest := fun hc => h (by simp [hc])
    rw [List.foldl_cons, ih (mapDelete m d) hrest, mapGet_mapDelete_ne m d k hd]

theorem scanProfile_fold_snd (info : ProfileInfo) (ty : String)
    (l : List ProfAttrs) :
    ∀ (d0 : List (String × IProfileLoaded)) (t0 : List IProfileLoaded),
      (l.foldl (scanProfile info ty) (d0, t0)).2 =
        t0 ++ l.map (profileFix info) := by
  induction l with
  | nil => intro d0 t0; simp
  | cons x xs ih =>
    intro d0 t0
    simp only [List.foldl_cons, scanProfile, List.map_cons]
    rw [ih]
    simp

theorem scanProfile_fold_fst (info : ProfileInfo) (ty : String)
    (l : List ProfAttrs) :
    ∀ (d0 : List (String × IProfileLoaded)) (t0 : List IProfileLoaded),
      (l.foldl (scanProfile info ty) (d0, t0)).1 =
        l.foldl (fun d prof => if prof.isDefaultProfile then
          mapSet d ty (profileFix info prof) else d) d0 := by
  induction l with
  | nil => intro d0 t0; rfl
  | cons x xs ih =>
    intro d0 t0
    simp only [List.foldl_cons, scanProfile]
    rw [ih]

theorem jsSetAdd_nodup {l : List String} (h : l.Nodup) (x : String) :
    (jsSetAdd l x).Nodup := by
  unfold jsSetAdd
  by_cases hx : x ∈ l
  · rw [if_pos hx]; exact h
  · rw [if_neg hx]
    refine List.Nodup.append h (List.nodup_singleton x) ?_
    intro a ha hb
    rcases List.mem_singleton.mp hb with rfl
    exact hx ha

theorem jsSetOfList_nodup (l : List String) : (jsSetOfList l).Nodup := by
  unfold jsSetOfList
  suffices h : ∀ acc : List String, acc.Nodup → (l.foldl jsSetAdd acc).Nodup from
    h [] List.nodup_nil
  induction l with
  | nil => intro acc h; exact h
  | cons x xs ih => intro acc h; exact ih _ (jsSetAdd_nodup h x)

theorem refreshTypes_nodup (st : CacheState) (reg : List String) :
    (refreshTypes st reg).Nodup :=
  jsSetAdd_nodup (jsSetAdd_nodup (jsSetOfList_nodup _) _) _

theorem mapGet_defaults_fold_ne (info : ProfileInfo) (ty ty' : String)
    (h : ty' ≠ ty) (l : List ProfAttrs) :
    ∀ d0 : List (String × IProfileLoaded),
      mapGet (l.foldl (fun d prof => if prof.isDefaultProfile then
        mapSet d ty' (profileFix info prof) else d) d0) ty = mapGet d0 ty := by
  induction l with
  | nil => intro d0; rfl
  | cons x xs ih =>
    intro d0
    simp only [List.foldl_cons]
    by_cases hx : x.isDefaultProfile
    · rw [if_pos hx, ih, mapGet_mapSet_ne d0 ty' ty _ (Ne.symm h)]
    · rw [if_neg hx, ih]

theorem defaults_fold_no_default (info : ProfileInfo) (ty : String)
    (l : List ProfAttrs) (h : ∀ p ∈ l, p.isDefaultProfile = false) :
    ∀ d0 : List (String × IProfileLoaded),
      l.foldl (fun d prof => if prof.isDefaultProfile then
        mapSet d ty (profileFix info prof) else d) d0 = d0 := by
  induction l with
  | nil => intro d0; rfl
  | cons x xs ih =>
    intro d0
    simp only [List.foldl_cons]
    rw [if_neg (by simp [h x (by simp)]),
      ih (fun p hp => h p (by simp [hp])) d0]

theorem mapGet_defaults_fold_single (info : ProfileInfo) (ty : String)
    (l : List ProfAttrs) (prof₀ : ProfAttrs)
    (hdef : l.filter (fun p => p.isDefaultProfile) = [prof₀]) :
    ∀ d0 : List (String × IProfileLoaded),
      mapGet (l.foldl (fun d prof => if prof.isDefaultProfile then
        mapSet d ty (profileFix info prof) else d) d0) ty =
        some (profileFix info prof₀) := by
  induction l with
  | nil => cases hdef
  | cons x xs ih =>
    intro d0
    by_cases hx : x.isDefaultProfile
    · rw [List.filter_cons_of_pos (by simpa using hx)] at hdef
      have hx0 : x = prof₀ := (List.cons_eq_cons.mp hdef).1
      have hxs : xs.filter (fun p => p.isDefaultProfile) = [] :=
        (List.cons_eq_cons.mp hdef).2
      have hnone : ∀ p ∈ xs, p.isDefaultProfile = false := by
        intro p hp
        by_cases hd : p.isDefaultProfile
        · exact absurd (List.mem_filter.mpr ⟨hp, by simpa using hd⟩)
            (by rw [hxs]; simp)
        · simpa using hd
      simp only [List.foldl_cons, if_pos hx]
      rw [defaults_fold_no_default info ty xs hnone, hx0]
      exact mapGet_mapSet_self d0 ty (profileFix info prof₀)
    · rw [List.filter_cons_of_neg (by simpa using hx)] at hdef
      simp only [List.foldl_cons, if_neg hx]
      exact ih hdef d0

theorem processType_defaults_ne (info : ProfileInfo) (acc : ScanAcc)
    (ty ty' : String) (h : ty' ≠ ty) :
    mapGet (processType info acc ty').defaults ty = mapGet acc.defaults ty := by
  unfold processType
  by_cases he : ((info.getAllProfiles ty').filter
      (fun p => p.osLocLen > 0)).isEmpty
  · rw [if_pos he]
  · rw [if_neg he]
    simp only
    rw [scanProfile_fold_fst]
    exact mapGet_defaults_fold_ne info ty ty' h _ acc.defaults

theorem processType_defaults_at (info : ProfileInfo) (acc : ScanAcc)
    (ty : String) (prof₀ : ProfAttrs)
    (hdef : (((info.getAllProfiles ty).filter
        (fun p => p.osLocLen > 0)).filter
        (fun p => p.isDefaultProfile)) = [prof₀]) :
    mapGet (processType info acc ty).defaults ty =
      some (profileFix info prof₀) := by
  unfold processType
  have hmem : prof₀ ∈ (info.getAllProfiles ty).filter
      (fun p => p.osLocLen > 0) := by
    have : prof₀ ∈ (((info.getAllProfiles ty).filter
        (fun p => p.osLocLen > 0)).filter (fun p => p.isDefaultProfile)) := by
      rw [hdef]; simp
    exact (List.mem_filter.mp this).1
  have hne : ¬ ((info.getAllProfiles ty).filter
      (fun p => p.osLocLen > 0)).isEmpty := by
    intro hc
    rw [List.isEmpty_iff] at hc
    rw [hc] at hmem
    cases hmem
  rw [if_neg hne]
  simp only
  rw [scanProfile_fold_fst]
  exact mapGet_defaults_fold_single info ty _ prof₀ hdef acc.defaults

theorem mapGet_types_fold_defaults_ne (info : ProfileInfo) (ty : String)
    (l : List String) (h : ty ∉ l) :
    ∀ acc : ScanAcc,
      mapGet ((l.foldl (processType info) acc)).defaults ty =
        mapGet acc.defaults ty := by
  induction l with
  | nil => intro acc; rfl
  | cons t rest ih =>
    intro acc
    have ht : t ≠ ty := fun hc => h (by simp [hc])
    have hrest : ty ∉ rest := fun hc => h (by simp [hc])
    rw [List.foldl_cons, ih hrest, processType_defaults_ne info acc ty t ht]

theorem processType_newAll_append (info : ProfileInfo) (acc : ScanAcc)
    (t : String) :
    ∃ suffix, (processType info acc t).newAll = acc.newAll ++ suffix := by
  unfold processType
  by_cases he : ((info.getAllProfiles t).filter (fun p => p.osLocLen > 0)).isEmpty
  · rw [if_pos he]
    exact ⟨[], by simp⟩
  · rw [if_neg he]
    exact ⟨_, rfl⟩

theorem types_fold_newAll_append (info : ProfileInfo) (l : List String) :
    ∀ acc : ScanAcc,
      ∃ suffix, ((l.foldl (processType info) acc)).newAll =
        acc.newAll ++ suffix := by
  induction l with
  | nil => intro acc; exact ⟨[], by simp⟩
  | cons t rest ih =>
    intro acc
    rcases processType_newAll_append info acc t with ⟨s1, hs1⟩
    rcases ih (processType info acc t) with ⟨s2, hs2⟩
    exact ⟨s1 ++ s2, by rw [List.foldl_cons, hs2, hs1, List.append_assoc]⟩

theorem profileFix_mem_scan_newAll (st : CacheState) (info : ProfileInfo)
    (reg : List String) (ty : String) (prof₀ : ProfAttrs)
    (hty : ty ∈ refreshTypes st reg)
    (hmem : prof₀ ∈ (info.getAllProfiles ty).filter (fun p => p.osLocLen > 0)) :
    profileFix info prof₀ ∈ (refreshScanAcc st info reg).newAll := by
  obtain ⟨l1, l2, hsplit⟩ := List.append_of_mem hty
  have hne : ¬ ((info.getAllProfiles ty).filter
      (fun p => p.osLocLen > 0)).isEmpty := by
    intro hc
    rw [List.isEmpty_iff] at hc
    rw [hc] at hmem
    cases hmem
  unfold refreshScanAcc refreshScan
  rw [hsplit, List.foldl_append, List.foldl_cons]
  have hacc2 : ∀ acc1 : ScanAcc, (processType info acc1 ty).newAll =
      acc1.newAll ++ ((info.getAllProfiles ty).filter
        (fun p => p.osLocLen > 0)).map (profileFix info) := by
    intro acc1
    unfold processType
    rw [if_neg hne]
    simp only
    rw [scanProfile_fold_snd]
    simp
  rcases types_fold_newAll_append info l2
    (processType info (l1.foldl (processType info)
      { defaults := st.defaultProfileByType
        byType := st.profilesByType
        newAll := [] }) ty) with ⟨s2, hs2⟩
  rw [hs2, hacc2]
  refine List.mem_append.mpr (Or.inl (List.mem_append.mpr (Or.inr ?_)))
  exact List.mem_map_of_mem _ hmem

theorem ty_not_stale (st : CacheState) (info : ProfileInfo)
    (reg : List String) (ty : String) (prof₀ : ProfAttrs)
    (hTyped : ∀ t : String, ∀ p ∈ info.getAllProfiles t, p.profType = t)
    (hty : ty ∈ refreshTypes st reg)
    (hmem : prof₀ ∈ (info.getAllProfiles ty).filter (fun p => p.osLocLen > 0)) :
    ty ∉ refreshStale st info reg := by
  intro hst
  unfold refreshStale staleTypes at hst
  rcases List.mem_filter.mp hst with ⟨_, hcond⟩
  have hp : profileFix info prof₀ ∈ (refreshScanAcc st info reg).newAll :=
    profileFix_mem_scan_newAll st info reg ty prof₀ hty hmem
  have htype : (profileFix info prof₀).type = ty :=
    hTyped ty prof₀ (List.mem_filter.mp hmem).1
  have hany : (refreshScanAcc st info reg).newAll.any
      (fun p => p.type = ty) = true :=
    List.any_eq_true.mpr ⟨_, hp, by simp [htype]⟩
  rw [hany] at hcond
  cases hcond

/-- **C4.** During `ProfilesCache.refresh`, for each processed profile type
the profile that the external library marks with `isDefaultProfile` becomes
the value stored in `defaultProfileByType` for that type (the merged
`profileFix` object, which the end-of-refresh in-place updates — token
removal and environment substitution — also act on through the shared
reference, modelled by `refreshFixup`); a later `getDefaultProfile(type)`
call returns that profile; and `getDefaultProfile` with no argument uses the
type `"zosmf"`. The hypotheses are the library guarantees that profiles
listed for a type carry that type and that exactly one of them is marked
default. -/
theorem getDefaultProfile_refresh (st : CacheState) (info : ProfileInfo)
    (reg : List String) (env : String → Option String) (ty : String)
    (prof₀ : ProfAttrs)
    (hTyped : ∀ t : String, ∀ p ∈ info.getAllProfiles t, p.profType = t)
    (hty : ty ∈ refreshTypes st reg)
    (hdef : (((info.getAllProfiles ty).filter
        (fun p => p.osLocLen > 0)).filter
        (fun p => p.isDefaultProfile)) = [prof₀]) :
    getDefaultProfile (refresh st info reg env) ty =
        some (refreshFixup st info reg env (profileFix info prof₀)) ∧
      (∀ st' : CacheState, getDefaultProfile st' = getDefaultProfile st' "zosmf") := by
  constructor
  · have hmem : prof₀ ∈ (info.getAllProfiles ty).filter
        (fun p => p.osLocLen > 0) := by
      have : prof₀ ∈ (((info.getAllProfiles ty).filter
          (fun p => p.osLocLen > 0)).filter (fun p => p.isDefaultProfile)) := by
        rw [hdef]; simp
      exact (List.mem_filter.mp this).1
    unfold getDefaultProfile
    rw [refresh_defaults_eq,
      mapGet_map_value (refreshDefaultsClean st info reg)
        (refreshFixup st info reg env) ty]
    suffices h : mapGet (refreshDefaultsClean st info reg) ty =
        some (profileFix info prof₀) by
      rw [h]; rfl
    unfold refreshDefaultsClean
    rw [mapGet_foldl_mapDelete_notMem _ _ ty
      (ty_not_stale st info reg ty prof₀ hTyped hty hmem)]
    obtain ⟨l1, l2, hsplit⟩ := List.append_of_mem hty
    have hnodup := refreshTypes_nodup st reg
    rw [hsplit] at hnodup
    have hty2 : ty ∉ l2 := by
      have h2 := hnodup.of_append_right
      exact (List.nodup_cons.mp h2).1
    unfold refreshScanAcc refreshScan
    rw [hsplit, List.foldl_append, List.foldl_cons,
      mapGet_types_fold_defaults_ne info ty l2 hty2,
      processType_defaults_at info _ ty prof₀ hdef]
  · intro st'
    rfl

/-- Witness for C4 at the concrete sample library behaviour. -/
theorem getDefaultProfile_refresh_witness :
    getDefaultProfile
        (refresh emptyCacheState sampleInfo ["zosmf"] (fun _ => none))
        "zosmf" =
      some (refreshFixup emptyCacheState sampleInfo ["zosmf"] (fun _ => none)
        (profileFix sampleInfo sampleAttrs)) :=
  (getDefaultProfile_refresh emptyCacheState sampleInfo ["zosmf"]
    (fun _ => none) "zosmf" sampleAttrs
    (by
      intro t p hp
      simp only [sampleInfo] at hp
      by_cases h : t = "zosmf"
      · rw [if_pos h] at hp
        rcases List.mem_singleton.mp hp with rfl
        rw [h]
        rfl
      · rw [if_neg h] at hp
        cases hp)
    (by decide) (by decide)).1

theorem mem_defaults_fold (info : ProfileInfo) (t : String)
    (l : List ProfAttrs) :
    ∀ (d0 : List (String × IProfileLoaded)) (kv : String × IProfileLoaded),
      kv ∈ l.foldl (fun d prof => if prof.isDefaultProfile then
        mapSet d t (profileFix info prof) else d) d0 →
      kv.1 = t ∨ kv ∈ d0 := by
  induction l with
  | nil => intro d0 kv h; exact Or.inr h
  | cons x xs ih =>
    intro d0 kv h
    rw [List.foldl_cons] at h
    by_cases hx : x.isDefaultProfile
    · rw [if_pos hx] at h
      rcases ih (mapSet d0 t (profileFix info x)) kv h with h1 | h1
      · exact Or.inl h1
      · obtain ⟨k1, v1⟩ := kv
        rcases mem_mapSet h1 with ⟨hk, _⟩ | ⟨hm, _⟩
        · exact Or.inl hk
        · exact Or.inr hm
    · rw [if_neg hx] at h
      exact ih d0 kv h

theorem processType_invariant (info : ProfileInfo)
    (hTyped : ∀ t : String, ∀ p ∈ info.getAllProfiles t, p.profType = t)
    (orig : List (String × List IProfileLoaded)) (acc : ScanAcc) (t : String)
    (hA : ∀ kv ∈ acc.byType,
      (kv.2 ≠ [] ∧ (∀ p ∈ kv.2, p.type = kv.1) ∧ (∀ p ∈ kv.2, p ∈ acc.newAll))
        ∨ kv ∈ orig)
    (hB : ∀ p ∈ acc.newAll, ∀ kv ∈ acc.byType, kv.1 = p.type →
      (kv.2 ≠ [] ∧ (∀ q ∈ kv.2, q.type = kv.1) ∧ (∀ q ∈ kv.2, q ∈ acc.newAll)))
    (hC : ∀ kv ∈ acc.defaults, ∃ l, (kv.1, l) ∈ acc.byType) :
    (∀ kv ∈ (processType info acc t).byType,
      (kv.2 ≠ [] ∧ (∀ p ∈ kv.2, p.type = kv.1) ∧
          (∀ p ∈ kv.2, p ∈ (processType info acc t).newAll))
        ∨ kv ∈ orig) ∧
    (∀ p ∈ (processType info acc t).newAll,
      ∀ kv ∈ (processType info acc t).byType, kv.1 = p.type →
      (kv.2 ≠ [] ∧ (∀ q ∈ kv.2, q.type = kv.1) ∧
        (∀ q ∈ kv.2, q ∈ (processType info acc t).newAll))) ∧
    (∀ kv ∈ (processType info acc t).defaults,
      ∃ l, (kv.1, l) ∈ (processType info acc t).byType) := by
  unfold processType
  by_cases he : ((info.getAllProfiles t).filter (fun p => p.osLocLen > 0)).isEmpty
  · rw [if_pos he]
    exact ⟨hA, hB, hC⟩
  · rw [if_neg he]
    simp only
    rw [scanProfile_fold_fst, scanProfile_fold_snd]
    simp only [List.nil_append]
    set tmp := ((info.getAllProfiles t).filter
      (fun p => p.osLocLen > 0)).map (profileFix info) with htmp
    have htmpne : tmp ≠ [] := by
      intro hc
      rw [htmp] at hc
      rcases List.map_eq_nil_iff.mp hc with hnil
      rw [List.isEmpty_iff] at he
      exact he hnil
    have htmptype : ∀ p ∈ tmp, p.type = t := by
      intro p hp
      rcases List.mem_map.mp hp with ⟨prof, hprof, hfix⟩
      have := hTyped t prof (List.mem_filter.mp hprof).1
      rw [← hfix]
      exact this
    have hGoodNew : tmp ≠ [] ∧ (∀ p ∈ tmp, p.type = t) ∧
        (∀ p ∈ tmp, p ∈ acc.newAll ++ tmp) := by
      exact ⟨htmpne, htmptype, fun p hp => List.mem_append.mpr (Or.inr hp)⟩
    refine ⟨?_, ?_, ?_⟩
    · intro kv hkv
      rcases mem_mapSet (by simpa using hkv) with ⟨hk, hv⟩ | ⟨hm, hk⟩
      · left
        refine ⟨hv ▸ htmpne, ?_, ?_⟩
        · intro p hp
          rw [hk]
          exact htmptype p (hv ▸ hp)
        · intro p hp
          exact List.mem_append.mpr (Or.inr (hv ▸ hp))
      · rcases hA kv hm with ⟨h1, h2, h3⟩ | hold
        · exact Or.inl ⟨h1, h2, fun p hp =>
            List.mem_append.mpr (Or.inl (h3 p hp))⟩
        · exact Or.inr hold
    · intro p hp kv hkv hkey
      rcases List.mem_append.mp hp with hpo | hpt
      · rcases mem_mapSet (by simpa using hkv) with ⟨hk, hv⟩ | ⟨hm, hk⟩
        · refine ⟨hv ▸ htmpne, ?_, ?_⟩
          · intro q hq
            rw [hk]
            exact htmptype q (hv ▸ hq)
          · intro q hq
            exact List.mem_append.mpr (Or.inr (hv ▸ hq))
        · rcases hB p hpo kv hm hkey with ⟨h1, h2, h3⟩
          exact ⟨h1, h2, fun q hq => List.mem_append.mpr (Or.inl (h3 q hq))⟩
      · have hpt2 : p.type = t := htmptype p hpt
        rcases mem_mapSet (by simpa using hkv) with ⟨hk, hv⟩ | ⟨hm, hk⟩
        · refine ⟨hv ▸ htmpne, ?_, ?_⟩
          · intro q hq
            rw [hk]
            exact htmptype q (hv ▸ hq)
          · intro q hq
            exact List.mem_append.mpr (Or.inr (hv ▸ hq))
        · exact absurd (hkey.trans hpt2) hk
    · intro kv hkv
      rcases mem_defaults_fold info t _ acc.defaults kv hkv with hk | hm
      · exact ⟨tmp, hk ▸ mem_mapSet_self acc.byType t tmp⟩
      · rcases hC kv hm with ⟨l, hl⟩
        by_cases hk : kv.1 = t
        · exact ⟨tmp, hk ▸ mem_mapSet_self acc.byType t tmp⟩
        · exact ⟨l, mem_mapSet_of_ne hl hk⟩

theorem scan_invariant (info : ProfileInfo)
    (hTyped : ∀ t : String, ∀ p ∈ info.getAllProfiles t, p.profType = t)
    (orig : List (String × List IProfileLoaded)) (types : List String) :
    ∀ acc : ScanAcc,
      ((∀ kv ∈ acc.byType,
        (kv.2 ≠ [] ∧ (∀ p ∈ kv.2, p.type = kv.1) ∧ (∀ p ∈ kv.2, p ∈ acc.newAll))
          ∨ kv ∈ orig) ∧
       (∀ p ∈ acc.newAll, ∀ kv ∈ acc.byType, kv.1 = p.type →
         (kv.2 ≠ [] ∧ (∀ q ∈ kv.2, q.type = kv.1) ∧
           (∀ q ∈ kv.2, q ∈ acc.newAll))) ∧
       (∀ kv ∈ acc.defaults, ∃ l, (kv.1, l) ∈ acc.byType)) →
      ((∀ kv ∈ (types.foldl (processType info) acc).byType,
        (kv.2 ≠ [] ∧ (∀ p ∈ kv.2, p.type = kv.1) ∧
            (∀ p ∈ kv.2, p ∈ (types.foldl (processType info) acc).newAll))
          ∨ kv ∈ orig) ∧
       (∀ p ∈ (types.foldl (processType info) acc).newAll,
         ∀ kv ∈ (types.foldl (processType info) acc).byType, kv.1 = p.type →
         (kv.2 ≠ [] ∧ (∀ q ∈ kv.2, q.type = kv.1) ∧
           (∀ q ∈ kv.2, q ∈ (types.foldl (processType info) acc).newAll))) ∧
       (∀ kv ∈ (types.foldl (processType info) acc).defaults,
         ∃ l, (kv.1, l) ∈ (types.foldl (processType info) acc).byType)) := by
  induction types with
  | nil => intro acc h; exact h
  | cons t rest ih =>
    intro acc h
    rw [List.foldl_cons]
    exact ih (processType info acc t)
      (by
        rcases h with ⟨hA, hB, hC⟩
        exact processType_invariant info hTyped orig acc t hA hB hC)

theorem envUpdateLoaded_type (env : String → Option String)
    (p : IProfileLoaded) : (envUpdateLoaded env p).type = p.type :=
  rfl

theorem checkMergingSingle_type (b : Option IProfileLoaded)
    (p : IProfileLoaded) :
    (checkMergingConfigSingleProfile b p).type = p.type := by
  unfold checkMergingConfigSingleProfile
  by_cases hs : shouldRemoveTokenFromProfile p b
  · rw [if_pos hs]
  · rw [if_neg hs]

theorem processType_invariantB (info : ProfileInfo)
    (hTyped : ∀ t : String, ∀ p ∈ info.getAllProfiles t, p.profType = t)
    (acc : ScanAcc) (t : String)
    (hB : ∀ p ∈ acc.newAll, ∀ kv ∈ acc.byType, kv.1 = p.type →
      (kv.2 ≠ [] ∧ (∀ q ∈ kv.2, q.type = kv.1) ∧
        (∀ q ∈ kv.2, q ∈ acc.newAll))) :
    ∀ p ∈ (processType info acc t).newAll,
      ∀ kv ∈ (processType info acc t).byType, kv.1 = p.type →
      (kv.2 ≠ [] ∧ (∀ q ∈ kv.2, q.type = kv.1) ∧
        (∀ q ∈ kv.2, q ∈ (processType info acc t).newAll)) := by
  unfold processType
  by_cases he : ((info.getAllProfiles t).filter (fun p => p.osLocLen > 0)).isEmpty
  · rw [if_pos he]
    exact hB
  · rw [if_neg he]
    simp only
    rw [scanProfile_fold_snd]
    simp only [List.nil_append]
    set tmp := ((info.getAllProfiles t).filter
      (fun p => p.osLocLen > 0)).map (profileFix info) with htmp
    have htmpne : tmp ≠ [] := by
      intro hc
      rw [htmp] at hc
      rcases List.map_eq_nil_iff.mp hc with hnil
      rw [List.isEmpty_iff] at he
      exact he hnil
    have htmptype : ∀ p ∈ tmp, p.type = t := by
      intro p hp
      rcases List.mem_map.mp hp with ⟨prof, hprof, hfix⟩
      have := hTyped t prof (List.mem_filter.mp hprof).1
      rw [← hfix]
      exact this
    intro p hp kv hkv hkey
    rcases List.mem_append.mp hp with hpo | hpt
    · rcases mem_mapSet (by simpa using hkv) with ⟨hk, hv⟩ | ⟨hm, hk⟩
      · refine ⟨hv ▸ htmpne, ?_, ?_⟩
        · intro q hq
          rw [hk]
          exact htmptype q (hv ▸ hq)
        · intro q hq
          exact List.mem_append.mpr (Or.inr (hv ▸ hq))
      · rcases hB p hpo kv hm hkey with ⟨h1, h2, h3⟩
        exact ⟨h1, h2, fun q hq => List.mem_append.mpr (Or.inl (h3 q hq))⟩
    · have hpt2 : p.type = t := htmptype p hpt
      rcases mem_mapSet (by simpa using hkv) with ⟨hk, hv⟩ | ⟨hm, hk⟩
      · refine ⟨hv ▸ htmpne, ?_, ?_⟩
        · intro q hq
          rw [hk]
          exact htmptype q (hv ▸ hq)
        · intro q hq
          exact List.mem_append.mpr (Or.inr (hv ▸ hq))
      · exact absurd (hkey.trans hpt2) hk

theorem scan_invariantB (info : ProfileInfo)
    (hTyped : ∀ t : String, ∀ p ∈ info.getAllProfiles t, p.profType = t)
    (types : List String) :
    ∀ acc : ScanAcc,
      (∀ p ∈ acc.newAll, ∀ kv ∈ acc.byType, kv.1 = p.type →
        (kv.2 ≠ [] ∧ (∀ q ∈ kv.2, q.type = kv.1) ∧
          (∀ q ∈ kv.2, q ∈ acc.newAll))) →
      ∀ p ∈ (types.foldl (processType info) acc).newAll,
        ∀ kv ∈ (types.foldl (processType info) acc).byType, kv.1 = p.type →
        (kv.2 ≠ [] ∧ (∀ q ∈ kv.2, q.type = kv.1) ∧
          (∀ q ∈ kv.2, q ∈ (types.foldl (processType info) acc).newAll)) := by
  induction types with
  | nil => intro acc h; exact h
  | cons t rest ih =>
    intro acc h
    rw [List.foldl_cons]
    exact ih (processType info acc t) (processType_invariantB info hTyped acc t h)

theorem byTypeClean_good (st : CacheState) (info : ProfileInfo)
    (reg : List String)
    (hTyped : ∀ t : String, ∀ p ∈ info.getAllProfiles t, p.profType = t) :
    ∀ kv ∈ refreshByTypeClean st info reg,
      kv.2 ≠ [] ∧ (∀ p ∈ kv.2, p.type = kv.1) ∧
        (∀ p ∈ kv.2, p ∈ (refreshScanAcc st info reg).newAll) := by
  have hB := scan_invariantB info hTyped (refreshTypes st reg)
    { defaults := st.defaultProfileByType
      byType := st.profilesByType
      newAll := [] }
    (by
      intro p hp
      cases hp)
  have hscan : (refreshTypes st reg).foldl (processType info)
      { defaults := st.defaultProfileByType
        byType := st.profilesByType
        newAll := [] } = refreshScanAcc st info reg := rfl
  rw [hscan] at hB
  intro kv hkv
  unfold refreshByTypeClean at hkv
  rcases (mem_foldl_mapDelete _ _ kv).mp hkv with ⟨hmem, hstale⟩
  have hkey : kv.1 ∈ (refreshScanAcc st info reg).byType.map
      (fun kv => kv.1) := List.mem_map_of_mem _ hmem
  cases hany : (refreshScanAcc st info reg).newAll.any
      (fun p => p.type = kv.1) with
  | false =>
    exact absurd (List.mem_filter.mpr ⟨hkey, by rw [hany]; rfl⟩) hstale
  | true =>
    rcases List.any_eq_true.mp hany with ⟨p, hp, htype⟩
    simp only [decide_eq_true_eq] at htype
    exact hB p hp kv hmem htype.symm

theorem newAll_bucket_fold (info : ProfileInfo)
    (hTyped : ∀ t : String, ∀ p ∈ info.getAllProfiles t, p.profType = t) :
    ∀ types : List String, types.Nodup → ∀ acc : ScanAcc,
      (∀ p ∈ acc.newAll, ∃ kv, kv ∈ acc.byType ∧ p ∈ kv.2 ∧
        kv.1 = p.type ∧ kv.1 ∉ types) →
      ∀ p ∈ (types.foldl (processType info) acc).newAll,
        ∃ kv, kv ∈ (types.foldl (processType info) acc).byType ∧
          p ∈ kv.2 ∧ kv.1 = p.type := by
  intro types
  induction types with
  | nil =>
    intro _ acc h p hp
    rcases h p hp with ⟨kv, h1, h2, h3, _⟩
    exact ⟨kv, h1, h2, h3⟩
  | cons t rest ih =>
    intro hnd acc h
    have htr : t ∉ rest := (List.nodup_cons.mp hnd).1
    have hndr : rest.Nodup := (List.nodup_cons.mp hnd).2
    rw [List.foldl_cons]
    refine ih hndr (processType info acc t) ?_
    intro p hp
    unfold processType at hp ⊢
    by_cases he : ((info.getAllProfiles t).filter
        (fun q => q.osLocLen > 0)).isEmpty
    · rw [if_pos he] at hp ⊢
      rcases h p hp with ⟨kv, h1, h2, h3, h4⟩
      exact ⟨kv, h1, h2, h3, fun hc => h4 (by simp [hc])⟩
    · rw [if_neg he] at hp ⊢
      simp only at hp ⊢
      rw [scanProfile_fold_snd] at hp
      rw [scanProfile_fold_snd]
      simp only [List.nil_append] at hp
      rcases List.mem_append.mp hp with hpo | hpt
      · rcases h p hpo with ⟨kv, h1, h2, h3, h4⟩
        have hkt : kv.1 ≠ t := fun hc => h4 (by simp [hc])
        refine ⟨kv, ?_, h2, h3, fun hc => h4 (by simp [hc])⟩
        obtain ⟨k1, v1⟩ := kv
        exact mem_mapSet_of_ne h1 hkt
      · refine ⟨(t, ((info.getAllProfiles t).filter
          (fun q => q.osLocLen > 0)).map (profileFix info)), ?_, hpt, ?_, htr⟩
        · simp only [List.nil_append]
          exact mem_mapSet_self acc.byType t _
        · rcases List.mem_map.mp hpt with ⟨prof, hprof, hfix⟩
          have := hTyped t prof (List.mem_filter.mp hprof).1
          rw [← hfix]
          exact this.symm

theorem newAll_in_surviving_bucket (st : CacheState) (info : ProfileInfo)
    (reg : List String)
    (hTyped : ∀ t : String, ∀ p ∈ info.getAllProfiles t, p.profType = t) :
    ∀ p ∈ (refreshScanAcc st info reg).newAll,
      ∃ kv, kv ∈ refreshByTypeClean st info reg ∧ p ∈ kv.2 := by
  intro p hp
  have hfold := newAll_bucket_fold info hTyped (refreshTypes st reg)
    (refreshTypes_nodup st reg)
    { defaults := st.defaultProfileByType
      byType := st.profilesByType
      newAll := [] }
    (by
      intro q hq
      cases hq)
  have hscan : (refreshTypes st reg).foldl (processType info)
      { defaults := st.defaultProfileByType
        byType := st.profilesByType
        newAll := [] } = refreshScanAcc st info reg := rfl
  rw [hscan] at hfold
  rcases hfold p hp with ⟨kv, h1, h2, h3⟩
  have hstale : kv.1 ∉ refreshStale st info reg := by
    intro hst
    unfold refreshStale staleTypes at hst
    rcases List.mem_filter.mp hst with ⟨_, hcond⟩
    have hany : (refreshScanAcc st info reg).newAll.any
        (fun q => q.type = kv.1) = true :=
      List.any_eq_true.mpr ⟨p, hp, by simp [h3]⟩
    rw [hany] at hcond
    cases hcond
  refine ⟨kv, ?_, h2⟩
  unfold refreshByTypeClean
  exact (mem_foldl_mapDelete _ _ kv).mpr ⟨h1, hstale⟩

/-- **C3.** After any completed `ProfilesCache.refresh` the cache's views are
mutually consistent: every profile in a `profilesByType` bucket appears in
`allProfiles`; every type still holding an entry in `profilesByType` or in
`defaultProfileByType` has at least one profile of that type in `allProfiles`
(the post-loop cleanup deletes types with no remaining profiles from both
maps); and `profilesForValidation` is reset to the empty array. The
hypotheses are the library guarantee that profiles listed for a type carry
that type, and the cache invariant (true of a fresh cache and preserved by
`refresh`) that every type with a default also has a `profilesByType`
entry. -/
theorem refresh_views_consistent (st : CacheState) (info : ProfileInfo)
    (reg : List String) (env : String → Option String)
    (hTyped : ∀ t : String, ∀ p ∈ info.getAllProfiles t, p.profType = t)
    (hKeys : ∀ kv ∈ st.defaultProfileByType,
      ∃ l, (kv.1, l) ∈ st.profilesByType) :
    (∀ ty : String, ∀ l : List IProfileLoaded,
      (ty, l) ∈ (refresh st info reg env).profilesByType →
      ∀ p ∈ l, p ∈ (refresh st info reg env).allProfiles) ∧
    (∀ ty : String, ∀ l : List IProfileLoaded,
      (ty, l) ∈ (refresh st info reg env).profilesByType →
      ∃ p ∈ (refresh st info reg env).allProfiles, p.type = ty) ∧
    (∀ ty : String, ∀ d : IProfileLoaded,
      (ty, d) ∈ (refresh st info reg env).defaultProfileByType →
      ∃ p ∈ (refresh st info reg env).allProfiles, p.type = ty) ∧
    (refresh st info reg env).profilesForValidation = [] := by
  have hinv := scan_invariant info hTyped st.profilesByType
    (refreshTypes st reg)
    { defaults := st.defaultProfileByType
      byType := st.profilesByType
      newAll := [] }
    (by
      refine ⟨fun kv hkv => Or.inr hkv, ?_, hKeys⟩
      intro p hp
      cases hp)
  rcases hinv with ⟨_, _, hC⟩
  have hscan : (refreshTypes st reg).foldl (processType info)
      { defaults := st.defaultProfileByType
        byType := st.profilesByType
        newAll := [] } = refreshScanAcc st info reg := rfl
  rw [hscan] at hC
  have hGoodClean := byTypeClean_good st info reg hTyped
  refine ⟨?_, ?_, ?_, rfl⟩
  · intro ty l hmem p hp
    rw [refresh_profilesByType_eq] at hmem
    rcases List.mem_map.mp hmem with ⟨kv0, hkv0, heq⟩
    injection heq with hty hl
    rcases hGoodClean kv0 hkv0 with ⟨_, _, hsub⟩
    rw [← hl] at hp
    rcases List.mem_map.mp hp with ⟨q, hq, hq2⟩
    have hqnew : q ∈ (refreshScanAcc st info reg).newAll := hsub q hq
    have hcont : (refreshScanAcc st info reg).newAll.contains q = true := by
      simpa using hqnew
    have hany : (refreshByTypeClean st info reg).any
        (fun kv => kv.2.contains q) = true :=
      List.any_eq_true.mpr ⟨kv0, hkv0, by simpa using hq⟩
    rw [refresh_allProfiles_eq]
    refine List.mem_map.mpr ⟨q, hqnew, ?_⟩
    rw [if_pos hany]
    rw [if_pos hcont] at hq2
    exact hq2
  · intro ty l hmem
    rw [refresh_profilesByType_eq] at hmem
    rcases List.mem_map.mp hmem with ⟨kv0, hkv0, heq⟩
    injection heq with hty hl
    rcases hGoodClean kv0 hkv0 with ⟨hne, htypes, hsub⟩
    rcases List.exists_mem_of_ne_nil kv0.2 hne with ⟨q, hq⟩
    have hqnew := hsub q hq
    have hany : (refreshByTypeClean st info reg).any
        (fun kv => kv.2.contains q) = true :=
      List.any_eq_true.mpr ⟨kv0, hkv0, by simpa using hq⟩
    refine ⟨refreshFixup st info reg env q, ?_, ?_⟩
    · rw [refresh_allProfiles_eq]
      refine List.mem_map.mpr ⟨q, hqnew, ?_⟩
      rw [if_pos hany]
      rfl
    · rw [refreshFixup_type, htypes q hq]
      exact hty
  · intro ty d hmem
    rw [refresh_defaults_eq] at hmem
    rcases List.mem_map.mp hmem with ⟨kv0, hkv0, heq⟩
    injection heq with hty hd
    unfold refreshDefaultsClean at hkv0
    rcases (mem_foldl_mapDelete _ _ kv0).mp hkv0 with ⟨hmem0, hstale0⟩
    rcases hC kv0 hmem0 with ⟨l0, hl0⟩
    have hclean : (kv0.1, l0) ∈ refreshByTypeClean st info reg := by
      unfold refreshByTypeClean
      exact (mem_foldl_mapDelete _ _ (kv0.1, l0)).mpr ⟨hl0, hstale0⟩
    rcases hGoodClean (kv0.1, l0) hclean with ⟨hne, htypes, hsub⟩
    rcases List.exists_mem_of_ne_nil l0 hne with ⟨q, hq⟩
    have hqnew := hsub q hq
    have hany : (refreshByTypeClean st info reg).any
        (fun kv => kv.2.contains q) = true :=
      List.any_eq_true.mpr ⟨(kv0.1, l0), hclean, by simpa using hq⟩
    refine ⟨refreshFixup st info reg env q, ?_, ?_⟩
    · rw [refresh_allProfiles_eq]
      refine List.mem_map.mpr ⟨q, hqnew, ?_⟩
      rw [if_pos hany]
      rfl
    · rw [refreshFixup_type, htypes q hq]
      exact hty

/-- Witness for C3 at the concrete sample library behaviour and an empty
starting cache. -/
theorem refresh_views_consistent_witness :
    (refresh emptyCacheState sampleInfo ["zosmf"]
      (fun _ => none)).profilesForValidation = [] :=
  (refresh_views_consistent emptyCacheState sampleInfo ["zosmf"]
    (fun _ => none)
    (by
      intro t p hp
      simp only [sampleInfo] at hp
      by_cases h : t = "zosmf"
      · rw [if_pos h] at hp
        rcases List.mem_singleton.mp hp with rfl
        rw [h]
        rfl
      · rw [if_neg h] at hp
        cases hp)
    (by
      intro kv hkv
      cases hkv)).2.2.2

/-- **C1.** `shouldRemoveTokenFromProfile(profile, baseProfile)` returns true
exactly when: the default base profile has a host or a port, the profile has
both a host and a port, the profile's `tokenType` starts with the APIML token
type, and either the two hosts differ, the two ports differ, or the profile
carries both a user and a password. Moreover, after `ProfilesCache.refresh`
completes — under the library guarantee that `getAllProfiles(t)` returns
profiles whose `profType` is `t`, which is what routes every retained profile
object through a surviving `profilesByType` bucket and hence through
`checkMergingConfigAllProfiles` — no profile in `allProfiles` or in any
`profilesByType` bucket still satisfies that condition against the cached
default base profile: any profile that satisfied it had its `tokenType` and
`tokenValue` set to `undefined`, which in particular falsifies the
condition. -/
theorem shouldRemove_condition_and_refresh_invariant :
    (∀ (profile : IProfileLoaded) (baseProfile : Option IProfileLoaded),
      shouldRemoveTokenFromProfile profile baseProfile = true ↔
        ((propTruthy (chainProp baseProfile "host") = true ∨
            propTruthy (chainProp baseProfile "port") = true) ∧
          (propTruthy (getProp profile.profile "host") = true ∧
            propTruthy (getProp profile.profile "port") = true) ∧
          tokenTypeStartsWithApiml profile = true ∧
          (jsStrictNe (chainProp baseProfile "host")
              (getProp profile.profile "host") = true ∨
            jsStrictNe (chainProp baseProfile "port")
              (getProp profile.profile "port") = true ∨
            (propTruthy (getProp profile.profile "user") = true ∧
              propTruthy (getProp profile.profile "password") = true)))) ∧
    (∀ (st : CacheState) (info : ProfileInfo) (registeredTypes : List String)
        (env : String → Option String),
      (∀ t : String, ∀ p ∈ info.getAllProfiles t, p.profType = t) →
      (((refresh st info registeredTypes env).allProfiles.all (fun p =>
        !shouldRemoveTokenFromProfile p
          (mapGet (refresh st info registeredTypes env).defaultProfileByType
            "base"))) = true) ∧
      (((refresh st info registeredTypes env).profilesByType.all (fun kv =>
        kv.2.all (fun p =>
          !shouldRemoveTokenFromProfile p
            (mapGet (refresh st info registeredTypes env).defaultProfileByType
              "base")))) = true)) := by
  constructor
  · intro profile baseProfile
    unfold shouldRemoveTokenFromProfile
    constructor
    · intro h
      simp only [Bool.and_eq_true, Bool.or_eq_true] at h
      tauto
    · intro h
      simp only [Bool.and_eq_true, Bool.or_eq_true]
      tauto
  · intro st info registeredTypes env hTyped
    have hbase : mapGet
        (refresh st info registeredTypes env).defaultProfileByType "base" =
        Option.map
          (fun b => envUpdateLoaded env (checkMergingConfigSingleProfile
            (refreshBase st info registeredTypes) b))
          (refreshBase st info registeredTypes) := by
      rw [refresh_defaults_eq,
        mapGet_map_value (refreshDefaultsClean st info registeredTypes)
          (refreshFixup st info registeredTypes env) "base"]
      rfl
    constructor
    · rw [refresh_allProfiles_eq, List.all_eq_true]
      intro x hx
      rcases List.mem_map.mp hx with ⟨q, hq, hq2⟩
      rcases newAll_in_surviving_bucket st info registeredTypes hTyped q hq
        with ⟨kv, hkv, hqm⟩
      have hany : (refreshByTypeClean st info registeredTypes).any
          (fun kv => kv.2.contains q) = true :=
        List.any_eq_true.mpr ⟨kv, hkv, by simpa using hqm⟩
      rw [if_pos hany] at hq2
      rw [← hq2, hbase,
        shouldRemove_fixup_false env (refreshBase st info registeredTypes) q]
      rfl
    · rw [refresh_profilesByType_eq, List.all_eq_true]
      intro kvx hkvx
      rcases List.mem_map.mp hkvx with ⟨kv0, hkv0, heq⟩
      rw [← heq]
      simp only
      rw [List.all_eq_true]
      intro x hx
      rcases List.mem_map.mp hx with ⟨q, hq, hq2⟩
      have hqnew : q ∈ (refreshScanAcc st info registeredTypes).newAll :=
        (byTypeClean_good st info registeredTypes hTyped kv0 hkv0).2.2 q hq
      have hcont : (refreshScanAcc st info registeredTypes).newAll.contains q
          = true := by simpa using hqnew
      rw [if_pos hcont] at hq2
      rw [← hq2, hbase,
        shouldRemove_fixup_false env (refreshBase st info registeredTypes) q]
      rfl

/-- Witness for C1 at the concrete sample library behaviour and an empty
starting cache, discharging the typed-`getAllProfiles` hypothesis. -/
theorem shouldRemove_condition_and_refresh_invariant_witness :
    ((refresh emptyCacheState sampleInfo ["zosmf"]
      (fun _ => none)).allProfiles.all (fun p =>
        !shouldRemoveTokenFromProfile p
          (mapGet (refresh emptyCacheState sampleInfo ["zosmf"]
            (fun _ => none)).defaultProfileByType "base"))) = true :=
  (shouldRemove_condition_and_refresh_invariant.2 emptyCacheState sampleInfo
    ["zosmf"] (fun _ => none)
    (by
      intro t p hp
      simp only [sampleInfo] at hp
      by_cases h : t = "zosmf"
      · rw [if_pos h] at hp
        rcases List.mem_singleton.mp hp with rfl
        rw [h]
        rfl
      · rw [if_neg h] at hp
        cases hp)).1
